import Mathlib

/-!
Verification of the maffb blog-pipeline repository.

The Python sources are shallowly embedded over `List Char` (Python `str`
values are sequences of Unicode code points, which `List Char` models
exactly).  Python's ASCII-range `str.lower`, `str.strip`, `str.split` and
`in`/`find` operations are reproduced character by character.  External
effects (HTTP requests, the system clock, the filesystem) are passed in as
explicit parameters, so each tool's pure transformation logic is the object
of study.
-/

namespace Maffb

/-! ## Basic string utilities (Python `str` operations over `List Char`) -/

/-- Python whitespace for `str.strip()` / `str.split()`:
space, tab, newline, carriage return, vertical tab, form feed. -/
def isSpaceChar (c : Char) : Bool :=
  c == ' ' || c == '\t' || c == '\n' || c == '\r' ||
  c == Char.ofNat 11 || c == Char.ofNat 12

/-- Strip characters satisfying `p` from both ends (Python `str.strip`). -/
def stripBy (p : Char → Bool) (l : List Char) : List Char :=
  ((l.dropWhile p).reverse.dropWhile p).reverse

/-- Python `str.strip()` (whitespace, both ends). -/
def pyStrip (l : List Char) : List Char := stripBy isSpaceChar l

/-- Python `str.strip('#')`. -/
def stripHash (l : List Char) : List Char := stripBy (fun c => c == '#') l

/-- ASCII lowercasing of one code point, as Python `str.lower` acts on
the ASCII range (the repository's inputs are ASCII in the lowered parts). -/
def lowerChar (c : Char) : Char :=
  if 65 ≤ c.toNat && c.toNat ≤ 90 then Char.ofNat (c.toNat + 32) else c

/-- Python `str.lower()`. -/
def pyLower (l : List Char) : List Char := l.map lowerChar

/-- Number of positions at which `pat` occurs in `s`
(each position `p` with `pat` a prefix of `s.drop p` is counted). -/
def countSub (pat : List Char) : List Char → Nat
  | [] => if pat.isEmpty then 1 else 0
  | c :: cs => (if pat.isPrefixOf (c :: cs) then 1 else 0) + countSub pat cs

/-- Python `pat in s` substring test. -/
def containsSub (pat : List Char) : List Char → Bool
  | [] => pat.isEmpty
  | c :: cs => pat.isPrefixOf (c :: cs) || containsSub pat cs

/-- Python `s.find(pat)`: index of the first occurrence (`none` for -1). -/
def findSub (pat : List Char) : List Char → Option Nat
  | [] => if pat.isPrefixOf ([] : List Char) then some 0 else none
  | c :: cs => if pat.isPrefixOf (c :: cs) then some 0 else (findSub pat cs).map (· + 1)

/-- Python `s.split("\n\n")`. -/
def splitParas : List Char → List (List Char)
  | [] => [[]]
  | '\n' :: '\n' :: rest => [] :: splitParas rest
  | c :: rest =>
    match splitParas rest with
    | [] => [[c]]
    | g :: gs => (c :: g) :: gs

/-- Python `s.split()` helper: split on whitespace runs, discarding empties. -/
def splitWsAux (acc : List Char) : List Char → List (List Char)
  | [] => if acc.isEmpty then [] else [acc.reverse]
  | c :: cs =>
    if isSpaceChar c then
      if acc.isEmpty then splitWsAux [] cs else acc.reverse :: splitWsAux [] cs
    else splitWsAux (c :: acc) cs

/-- Python `s.split()` (no separator argument). -/
def splitWs (l : List Char) : List (List Char) := splitWsAux [] l

/-- Python string `<` (lexicographic by code point). -/
def lexLt : List Char → List Char → Bool
  | [], [] => false
  | [], _ :: _ => true
  | _ :: _, [] => false
  | a :: as, b :: bs =>
    if a.toNat < b.toNat then true
    else if a.toNat == b.toNat then lexLt as bs else false

/-! ## README section upserter (`readme_updater_tool.py`) -/

/-- The digest heading literal of `readme_updater_tool.py`
(`"## 📅 Daily Blog Summary"`). -/
def summaryHeading : List Char := "## 📅 Daily Blog Summary".data

/-- The heading followed by the blank line, i.e. the mandatory part
`## 📅 Daily Blog Summary\n\n` of the replacement regex. -/
def summaryHeadingNN : List Char := summaryHeading ++ ('\n' :: '\n' :: [])

/-- One section of `_format_daily_summary` (lines 55-77): heading,
list, source-link, emphasis, or plain-paragraph rendering. -/
def dailySummarySection (sec : List Char) : List Char :=
  if ("#".data).isPrefixOf (pyStrip sec) then
    let level := (sec.takeWhile (fun c => c == '#')).length
    let inner := pyStrip (stripHash sec)
    (if level == 1 then "#### ".data
     else if level == 2 then "##### ".data
     else "###### ".data) ++ inner ++ ('\n' :: '\n' :: [])
  else if ("- ".data).isPrefixOf (pyStrip sec) || ("* ".data).isPrefixOf (pyStrip sec)
      || ("1. ".data).isPrefixOf (pyStrip sec) then
    pyStrip sec ++ ('\n' :: [])
  else if containsSub "http".data sec &&
      (containsSub "blog".data (pyLower sec) || containsSub "post".data (pyLower sec)
        || containsSub "article".data (pyLower sec)) then
    "🔗 **Source:** ".data ++ pyStrip sec ++ ('\n' :: '\n' :: [])
  else if containsSub "**".data sec || containsSub "__".data sec then
    pyStrip sec ++ ('\n' :: '\n' :: [])
  else
    pyStrip sec ++ ('\n' :: '\n' :: [])

/-- Embedding of `ReadmeUpdaterTool._format_daily_summary` (lines 49-79). -/
def formatDailySummary (content title date : List Char) : List Char :=
  let header := "### 📰 ".data ++ title ++ " - ".data ++ date ++ ('\n' :: '\n' :: [])
  pyStrip ((splitParas content).foldl
    (fun acc sec => if (pyStrip sec).isEmpty then acc else acc ++ dailySummarySection sec)
    header)

/-- The text `## 📅 Daily Blog Summary\n\n{formatted_summary}\n\n` used as the
replacement (`new_summary_section`, line 182). -/
def newSummarySection (F : List Char) : List Char :=
  summaryHeadingNN ++ F ++ ('\n' :: '\n' :: [])

/-- The zero-width lookahead `(?=\n## |\n### |$)` of the section regex, tested
against the text remaining at the current position.  With `re.DOTALL` and
without `re.MULTILINE`, `$` matches at the end of the string and just before
a final newline. -/
def lookaheadOk (t : List Char) : Bool :=
  ("\n## ".data).isPrefixOf t || ("\n### ".data).isPrefixOf t
    || t.isEmpty || t == ['\n']

/-- The lazy group `(.*?)` of the section regex: shortest split
`t = g ++ rest` such that the lookahead holds at `rest`. -/
def lazyScan : List Char → List Char × List Char
  | [] => ([], [])
  | c :: cs =>
    if lookaheadOk (c :: cs) then ([], c :: cs)
    else
      let p := lazyScan cs
      (c :: p.1, p.2)

/-- One parsed item of a `re.sub` replacement template: a literal character
or a reference to a capturing group. -/
inductive TmplItem where
  | lit (c : Char)
  | group (n : Nat)
deriving DecidableEq, Repr

/-- ASCII letter test (`re`'s `ASCIILETTERS`). -/
def isAsciiLetterChar (c : Char) : Bool :=
  (65 ≤ c.toNat && c.toNat ≤ 90) || (97 ≤ c.toNat && c.toNat ≤ 122)

/-- ASCII digit test (`re`'s `DIGITS`). -/
def isDigitChar (c : Char) : Bool := 48 ≤ c.toNat && c.toNat ≤ 57

/-- Octal digit test (`re`'s `OCTDIGITS`). -/
def isOctDigitChar (c : Char) : Bool := 48 ≤ c.toNat && c.toNat ≤ 55

/-- Numeric value of an ASCII digit. -/
def digitVal (c : Char) : Nat := c.toNat - 48

/-- Tail of Python `int()` over a digit string: further digits, with a
single underscore allowed between two digits. -/
def pyIntAux (acc : Nat) : List Char → Option Nat
  | [] => some acc
  | '_' :: c :: rest =>
    if isDigitChar c then pyIntAux (acc * 10 + digitVal c) rest else none
  | c :: rest =>
    if isDigitChar c then pyIntAux (acc * 10 + digitVal c) rest else none

/-- Python `int()` on a group-name string, restricted to nonnegative
results: surrounding whitespace is stripped, an optional leading plus sign
is allowed, then digits with single underscores between them.  A leading
minus sign would produce a negative index, which `parse_template` rejects
("bad character in group name"), so it is folded into failure here. -/
def pyIntNonneg (s : List Char) : Option Nat :=
  match pyStrip s with
  | '+' :: c :: rest => if isDigitChar c then pyIntAux (digitVal c) rest else none
  | c :: rest => if isDigitChar c then pyIntAux (digitVal c) rest else none
  | [] => none

/-- Python `str.isidentifier`, in the ASCII range (an identifier group name
always leads to an "unknown group name" error for this pattern, which has
no named groups, so only the test's outcome matters). -/
def pyIsIdentifier : List Char → Bool
  | [] => false
  | c :: rest =>
    (isAsciiLetterChar c || c == '_') &&
      rest.all (fun d => isAsciiLetterChar d || d == '_' || isDigitChar d)

/-- Characters of a `\g<...>` group name up to the terminating `>`
(`re`'s `getuntil`); `none` when no terminator remains.  When the name
region contains a backslash, CPython pairs it with the next character as
one token (possibly hiding a `>`), but any name containing a backslash is
rejected by both the identifier and the `int()` route, so splitting at the
first plain `>` reaches the same error outcome. -/
def splitAtGt : List Char → Option (List Char × List Char)
  | [] => none
  | '>' :: rest => some ([], rest)
  | c :: rest => (splitAtGt rest).map (fun p => (c :: p.1, p.2))

/-- One escape of CPython's replacement-template parser
(`re._parser.parse_template`): given the characters after a backslash,
produce the parsed items this escape contributes and the remaining
characters, or `none` for a raised error — a trailing backslash, an unknown
ASCII-letter escape, a malformed or unknown group name, a group reference
above `numGroups`, or a three-digit octal escape above `0o377`.  An
`\g<...>` index at or above `MAXGROUPS` also exceeds `numGroups`, so the
single bound check covers both errors. -/
def parseTemplateEsc (numGroups : Nat) : List Char → Option (List TmplItem × List Char)
  | [] => none
  | e :: rest2 =>
    if e = 'g' then
      match rest2 with
      | '<' :: rest3 =>
        match splitAtGt rest3 with
        | none => none
        | some (name, rest4) =>
          if name.isEmpty then none
          else if pyIsIdentifier name then none
          else
            match pyIntNonneg name with
            | none => none
            | some k =>
              if numGroups < k then none
              else some ([TmplItem.group k], rest4)
      | _ => none
    else if e = '0' then
      match rest2 with
      | d2 :: rest3 =>
        if isOctDigitChar d2 then
          match rest3 with
          | d3 :: rest4 =>
            if isOctDigitChar d3 then
              some ([TmplItem.lit (Char.ofNat (digitVal d2 * 8 + digitVal d3))], rest4)
            else
              some ([TmplItem.lit (Char.ofNat (digitVal d2))], rest3)
          | [] => some ([TmplItem.lit (Char.ofNat (digitVal d2))], [])
        else some ([TmplItem.lit (Char.ofNat 0)], rest2)
      | [] => some ([TmplItem.lit (Char.ofNat 0)], [])
    else if isDigitChar e then
      match rest2 with
      | d2 :: rest3 =>
        if isDigitChar d2 then
          match rest3 with
          | d3 :: rest4 =>
            if isOctDigitChar e && isOctDigitChar d2 && isOctDigitChar d3 then
              if 255 < digitVal e * 64 + digitVal d2 * 8 + digitVal d3 then none
              else some ([TmplItem.lit
                (Char.ofNat (digitVal e * 64 + digitVal d2 * 8 + digitVal d3))], rest4)
            else
              if numGroups < digitVal e * 10 + digitVal d2 then none
              else some ([TmplItem.group (digitVal e * 10 + digitVal d2)], rest3)
          | [] =>
            if numGroups < digitVal e * 10 + digitVal d2 then none
            else some ([TmplItem.group (digitVal e * 10 + digitVal d2)], [])
        else
          if numGroups < digitVal e then none
          else some ([TmplItem.group (digitVal e)], rest2)
      | [] =>
        if numGroups < digitVal e then none
        else some ([TmplItem.group (digitVal e)], [])
    else if e = 'a' then some ([TmplItem.lit (Char.ofNat 7)], rest2)
    else if e = 'b' then some ([TmplItem.lit (Char.ofNat 8)], rest2)
    else if e = 'f' then some ([TmplItem.lit (Char.ofNat 12)], rest2)
    else if e = 'n' then some ([TmplItem.lit '\n'], rest2)
    else if e = 'r' then some ([TmplItem.lit (Char.ofNat 13)], rest2)
    else if e = 't' then some ([TmplItem.lit '\t'], rest2)
    else if e = 'v' then some ([TmplItem.lit (Char.ofNat 11)], rest2)
    else if e = '\\' then some ([TmplItem.lit '\\'], rest2)
    else if isAsciiLetterChar e then none
    else some ([TmplItem.lit '\\', TmplItem.lit e], rest2)

/-- CPython's replacement-template parser (`re._parser.parse_template`),
specialised to a pattern with `numGroups` capturing groups and no named
groups, fuel-indexed on the number of remaining characters (each step
consumes at least one character, so the character count suffices as fuel).
`none` models a raised exception, which propagates to `_run`'s handler. -/
def parseTemplateF (numGroups : Nat) : Nat → List Char → Option (List TmplItem)
  | 0, s => if s.isEmpty then some [] else none
  | _ + 1, [] => some []
  | fuel + 1, c :: rest =>
    if c = '\\' then
      match parseTemplateEsc numGroups rest with
      | none => none
      | some (its, rest2) =>
        (parseTemplateF numGroups fuel rest2).map (fun items => its ++ items)
    else (parseTemplateF numGroups fuel rest).map (fun items => TmplItem.lit c :: items)

/-- The template parser at its natural fuel (each step consumes at least
one character, so the character count suffices). -/
def parseTemplate (numGroups : Nat) (t : List Char) : Option (List TmplItem) :=
  parseTemplateF numGroups t.length t

/-- Expansion of a parsed template at one match of the section pattern:
group 1 captures `## 📅 Daily Blog Summary\n\n`, group 2 the lazily matched
section body `g`, and group 0 is the whole match; the parser validated
every reference against the group count, so other indices cannot occur. -/
def expandTemplate (g : List Char) : List TmplItem → List Char
  | [] => []
  | TmplItem.lit c :: items => c :: expandTemplate g items
  | TmplItem.group k :: items =>
    (if k = 0 then summaryHeadingNN ++ g
     else if k = 1 then summaryHeadingNN
     else if k = 2 then g
     else []) ++ expandTemplate g items

/-- The `re.sub` call with pattern `(## 📅 Daily Blog Summary\n\n)(.*?)(?=\n## |\n### |$)`
and a parsed replacement template, fuel-indexed (the fuel only needs to be
at least the number of characters; `subAll` supplies it).  Each match is
replaced by the template expanded at that match's captures; scanning
resumes after the match, so replacements are not rescanned, as in `re.sub`. -/
def subAllF (tmpl : List TmplItem) : Nat → List Char → List Char
  | 0, s => s
  | fuel + 1, s =>
    if summaryHeadingNN.isPrefixOf s then
      let scanned := lazyScan (s.drop summaryHeadingNN.length)
      expandTemplate scanned.1 tmpl ++ subAllF tmpl fuel scanned.2
    else
      match s with
      | [] => []
      | c :: cs => c :: subAllF tmpl fuel cs

/-- The full `re.sub` over a string. -/
def subAll (tmpl : List TmplItem) (s : List Char) : List Char :=
  subAllF tmpl s.length s

/-- Embedding of `_update_existing_summary_section` (lines 175-191): when the
regex matches somewhere (equivalently, when `summaryHeadingNN` occurs, since
the rest of the pattern can always match thanks to the `$` alternative), run
`re.sub`, whose replacement string `newSummarySection F` is first processed
as a template — a template the parser rejects raises `re.error`, modelled as
`none`.  Otherwise append the fresh section at the end (a plain f-string,
with no template processing). -/
def updateExistingSummarySection (cur F : List Char) : Option (List Char) :=
  if containsSub summaryHeadingNN cur then
    match parseTemplate 2 (newSummarySection F) with
    | none => none
    | some tmpl => some (subAll tmpl cur)
  else some (cur ++ ('\n' :: '\n' :: []) ++ newSummarySection F)

/-- Embedding of `_insert_new_summary_section` (lines 193-204). -/
def insertNewSummarySection (cur F : List Char) : List Char :=
  match findSub "## Features".data cur with
  | some i =>
    cur.take i ++ ('\n' :: []) ++ summaryHeadingNN ++ F ++ ('\n' :: '\n' :: []) ++ cur.drop i
  | none =>
    cur ++ ('\n' :: '\n' :: []) ++ summaryHeadingNN ++ F ++ ('\n' :: '\n' :: [])

/-- Template text of `_create_new_readme` before the interpolation point. -/
def tplIntro : String :=
  "# Maffb - Multi-Agent Fleet for Blogs\n\nMaffb is an intelligent blog content processing system built with CrewAI that automatically collects, analyzes, and summarizes engineering blog posts from RSS feeds.\n\n## 📅 Daily Blog Summary"

/-- Chunk 1 of the template tail of `_create_new_readme`. -/
def tplRestA : String :=
  "## Features\n\n- **Automated RSS Feed Collection**: Monitors multiple engineering blogs for new content\n- **AI-Powered Analysis**: Extracts key insights and trends from blog posts\n- **Smart Summarization**: Creates concise, informative summaries with source attribution"

/-- Chunk 2 of the template tail of `_create_new_readme`. -/
def tplRestB : String :=
  "- **Email Delivery**: Sends daily digests to subscribers\n- **Fallback Mechanism**: Always provides content, even when no new posts are available\n- **Daily README Updates**: Automatically updates README with latest summaries\n\n## Automated Workflow\n\n### GitHub Actions Cron Job\n"

/-- Chunk 3 of the template tail of `_create_new_readme`. -/
def tplRestC : String :=
  "The system includes an automated GitHub Actions workflow that runs every morning at **8:00 AM IST (2:30 AM UTC)** to:\n\n1. **Collect** latest blog posts from RSS feeds\n2. **Analyze** content for key insights and trends\n3. **Summarize** posts with proper source attribution"

/-- Chunk 4 of the template tail of `_create_new_readme`. -/
def tplRestD : String :=
  "4. **Email** summaries to subscribers\n5. **Update** README with daily summaries\n6. **Archive** results for 7 days\n\n## Architecture\n\n### Agents\n\n- **Blogs Collector**: Monitors RSS feeds and collects latest posts\n- **Blogs Analyst**: Extracts insights and identifies trends"

/-- Chunk 5 of the template tail of `_create_new_readme`. -/
def tplRestE : String :=
  "- **Blogs Summarizer**: Creates concise summaries with source attribution\n- **Blogs Summary Emailer**: Sends processed content via email\n- **README Updater**: Maintains daily summary updates in README\n\n### Tools\n\n- **RSS Feed Extractor**: Intelligent RSS feed discovery and parsing"

/-- Chunk 6 of the template tail of `_create_new_readme`. -/
def tplRestF : String :=
  "- **Emailer Tool**: SendGrid integration for email delivery\n- **Markdown Formatter**: Beautiful markdown formatting for summaries\n- **README Updater**: Automatic README maintenance with daily summaries\n\n## Development\n\n### Prerequisites\n\n- Python 3.10+\n- uv package manager\n\n### Installation\n"

/-- Chunk 7 of the template tail of `_create_new_readme`. -/
def tplRestG : String :=
  "```bash\n# Clone the repository\ngit clone <your-repo-url>\ncd maffb\n\n# Install dependencies\nuv sync\n\n# Run the crew\nuv run run_crew\n```\n\n## License\n\nThis project is licensed under the MIT License.\n"

/-- Template text of `_create_new_readme` after the interpolation point,
without its two leading newlines (assembled from newline-bounded chunks so
that occurrence counts can be evaluated chunk by chunk). -/
def tplRest : String :=
  tplRestA ++ "\n" ++ tplRestB ++ "\n" ++ tplRestC ++ "\n" ++ tplRestD ++ "\n" ++ tplRestE ++ "\n" ++ tplRestF ++ "\n" ++ tplRestG

/-- Embedding of `_create_new_readme` (lines 100-173): the default README template with the
formatted digest interpolated under the digest heading. -/
def createNewReadme (F : List Char) : List Char :=
  tplIntro.data ++ ('\n' :: '\n' :: []) ++ F ++ ('\n' :: '\n' :: []) ++ tplRest.data

/-- Embedding of `_update_readme_content` (lines 81-98).  The README state is `none` when
the file does not exist, `some text` otherwise.  A `none` result models an
exception propagating to `_run`'s handler; the README file is then not
written. -/
def updateReadmeContent (state : Option (List Char)) (F : List Char) : Option (List Char) :=
  match state with
  | none => some (createNewReadme F)
  | some cur =>
    if containsSub summaryHeading cur then updateExistingSummarySection cur F
    else some (insertNewSummarySection cur F)

/-- Embedding of `ReadmeUpdaterTool._run` (lines 18-47) on the README text: format the
summary and upsert it (the caller supplies the date, as the claims do).
`some text` is the README written on success; `none` is the caught-exception
path, which writes nothing. -/
def upsertReadme (state : Option (List Char)) (content title date : List Char) :
    Option (List Char) :=
  updateReadmeContent state (formatDailySummary content title date)

/-! ## Markdown formatter (`markdown_formatter_tool.py`, summary mode) -/

/-- One paragraph of `_format_summary` (lines 51-64): heading, list item,
source link, or plain paragraph.  The source-link label reproduces the
source file's literal characters exactly. -/
def summarySection (sec : List Char) : List Char :=
  if ("##".data).isPrefixOf (pyStrip sec) || ("###".data).isPrefixOf (pyStrip sec)
      || ("####".data).isPrefixOf (pyStrip sec) then
    pyStrip sec ++ ('\n' :: '\n' :: [])
  else if ("- ".data).isPrefixOf (pyStrip sec) || ("* ".data).isPrefixOf (pyStrip sec)
      || ("1. ".data).isPrefixOf (pyStrip sec) then
    pyStrip sec ++ ('\n' :: [])
  else if containsSub "http".data sec &&
      (containsSub "blog".data (pyLower sec) || containsSub "post".data (pyLower sec)
        || containsSub "article".data (pyLower sec)) then
    "ðŸ”— **Source:** ".data ++ pyStrip sec ++ ('\n' :: '\n' :: [])
  else
    pyStrip sec ++ ('\n' :: '\n' :: [])

/-- Embedding of `MarkdownFormatterTool._format_summary` (lines 39-66), reached by `_run`
with `format_type = "summary"`. -/
def formatSummary (content title date : List Char) : List Char :=
  let f1 : List Char := if title.isEmpty then [] else "# ".data ++ title ++ ('\n' :: '\n' :: [])
  let f2 : List Char :=
    if date.isEmpty then f1 else f1 ++ "**Date:** ".data ++ date ++ ('\n' :: '\n' :: [])
  pyStrip ((splitParas content).foldl
    (fun acc sec => if (pyStrip sec).isEmpty then acc else acc ++ summarySection sec) f2)

/-! ## RSS feed extractor (`rss_feed_extractor_tool.py`) -/

/-- One parsed feed entry.  Fields that `feedparser` may omit are `Option`s
(Python `entry.get(key, default)`); `content` is the list of content-block
values, empty when the key is absent or empty. -/
structure Entry where
  title : Option (List Char)
  link : Option (List Char)
  published : Option (List Char)
  summary : Option (List Char)
  content : List (List Char)
deriving DecidableEq, Repr

/-- The post dictionary built per relevant entry (lines 145-154). -/
structure Post where
  title : List Char
  link : List Char
  published : List Char
  postSummary : List Char
  blogName : List Char
  blogUrl : List Char
  rssUrl : List Char
  extractedAt : List Char
deriving DecidableEq, Repr

/-- The relevance test (lines 136-143): some whitespace-split token of the
lowercased topic is a substring of the lowercased title, summary, or first
content block's value. -/
def entryRelevant (topic : List Char) (e : Entry) : Bool :=
  let t := pyLower (e.title.getD [])
  let s := pyLower (e.summary.getD [])
  let c := match e.content with
    | [] => []
    | v :: _ => pyLower v
  (splitWs (pyLower topic)).any (fun kw => containsSub kw t || containsSub kw s || containsSub kw c)

/-- The post record for one relevant entry (lines 145-154); `extractedAt`
stands for `datetime.now().isoformat()`. -/
def mkPost (e : Entry) (blogName blogUrl rssUrl extractedAt : List Char) : Post :=
  { title := e.title.getD "No Title".data
    link := e.link.getD []
    published := e.published.getD []
    postSummary := e.summary.getD []
    blogName := blogName
    blogUrl := blogUrl
    rssUrl := rssUrl
    extractedAt := extractedAt }

/-- The classification loop (lines 135-160): relevant entries are split into
today's posts and other posts, preserving feed order.  `isToday` abstracts
`_is_today` (lines 178-196), which consults the system clock. -/
def classifyEntries (isToday : List Char → Bool) (topic bn bu ru xa : List Char) :
    List Entry → List Post × List Post
  | [] => ([], [])
  | e :: es =>
    let rest := classifyEntries isToday topic bn bu ru xa es
    if entryRelevant topic e then
      let p := mkPost e bn bu ru xa
      if isToday p.published then (p :: rest.1, rest.2) else (rest.1, p :: rest.2)
    else rest

/-- Stable descending insertion by the raw `published` string. -/
def insDesc (x : Post) : List Post → List Post
  | [] => [x]
  | y :: ys => if lexLt x.published y.published then y :: insDesc x ys else x :: y :: ys

/-- Python `list.sort(key=lambda x: x.get('published', ''), reverse=True)`:
stable sort, descending by the raw published string. -/
def sortDescByPublished : List Post → List Post
  | [] => []
  | x :: xs => insDesc x (sortDescByPublished xs)

/-- Embedding of `_extract_posts_from_rss` (lines 118-176) after a successful fetch and
parse: prefer today's posts, otherwise fall back to the others; sort
descending by the raw published string and truncate to `max_posts`. -/
def extractPostsFromRss (isToday : List Char → Bool) (entries : List Entry)
    (bn bu ru topic : List Char) (maxPosts : Nat) (xa : List Char) : List Post :=
  let c := classifyEntries isToday topic bn bu ru xa entries
  if c.1.isEmpty then (sortDescByPublished c.2).take maxPosts
  else (sortDescByPublished c.1).take maxPosts

/-- Spec-side description of the relevant posts of a feed, in feed order. -/
def relevantPosts (topic bn bu ru xa : List Char)
    (entries : List Entry) : List Post :=
  (entries.filter (entryRelevant topic)).map (fun e => mkPost e bn bu ru xa)

/-- Outcome of the one optional probe `GET blog_url` in `_find_rss_feed`:
a status and body, or a raised exception. -/
inductive ProbeResult where
  | ok (status : Nat) (body : List Char)
  | exn
deriving DecidableEq, Repr

/-- Embedding of `_find_rss_feed` (lines 86-116): the fixed base candidates, extended by
four extra patterns when the probe returns 200 with "rss" or "feed" in the
lowercased body; any probe failure is swallowed. -/
def findRssFeed (blogUrl : List Char) (probe : ProbeResult) : List (List Char) :=
  let base := [blogUrl ++ "/rss".data, blogUrl ++ "/feed".data, blogUrl ++ "/rss.xml".data,
    blogUrl ++ "/feed.xml".data, blogUrl ++ "/atom.xml".data, blogUrl ++ "/rss/".data,
    blogUrl ++ "/feed/".data]
  match probe with
  | .ok status body =>
    if status == 200 then
      if containsSub "rss".data (pyLower body) || containsSub "feed".data (pyLower body) then
        base ++ [blogUrl ++ "/rss/feed".data, blogUrl ++ "/feed/rss".data,
          blogUrl ++ "/blog/rss".data, blogUrl ++ "/blog/feed".data]
      else base
    else base
  | .exn => base

/-- One configured blog source (an element of `blog_sources.json`). -/
structure BlogSource where
  name : List Char
  url : List Char
deriving DecidableEq, Repr

/-- The per-blog candidate loop (lines 60-68): use the first candidate feed
that yields posts; failures and empty feeds are skipped.  `fetch u` is the
result of `_extract_posts_from_rss` for candidate URL `u` (an exception is
modelled as an empty result, exactly how the `except` branch treats it). -/
def tryFeeds (fetch : List Char → List Post) : List (List Char) → List Post
  | [] => []
  | u :: us =>
    let ps := fetch u
    if ps.isEmpty then tryFeeds fetch us else ps

/-- Result envelope of `RssFeedExtractorTool._run`: the distinct
"No posts found from any RSS feeds" outcome, or the JSON payload
`{topic, total_posts, extraction_date, posts}`. -/
inductive RunResult where
  | noPosts
  | success (topic : List Char) (totalPosts : Nat) (extractionDate : List Char) (posts : List Post)
deriving DecidableEq, Repr

/-- Posts accumulated over all blog sources (lines 51-68). -/
def accumulatedPosts (fetch : List Char → BlogSource → List Post)
    (probe : List Char → ProbeResult) (blogs : List BlogSource) : List Post :=
  blogs.flatMap (fun b => tryFeeds (fun u => fetch u b) (findRssFeed b.url (probe b.url)))

/-- Embedding of `RssFeedExtractorTool._run` (lines 29-84) after loading the blog sources:
accumulate, then either report the distinct no-posts outcome or sort
globally and emit the envelope. -/
def rssRun (fetch : List Char → BlogSource → List Post) (probe : List Char → ProbeResult)
    (blogs : List BlogSource) (topic extractionDate : List Char) : RunResult :=
  let posts := accumulatedPosts fetch probe blogs
  if posts.isEmpty then .noPosts
  else .success topic posts.length extractionDate (sortDescByPublished posts)

/-! ## Emailer (`emailer_tool.py`, send loop of `_run`, lines 131-225) -/

/-- What one `self.sg.send(message)` call does: return a response with a
status code, raise an `HTTPError` with a status and body, or raise some
other exception. -/
inductive SendOutcome where
  | response (status : Nat)
  | httpError (status : Nat) (body : List Char)
  | exn
deriving DecidableEq, Repr

/-- One recipient together with the outcome of the initial send and the
outcome the retried send would have (the latter is consulted only when the
regional retry fires). -/
structure RecipientSend where
  initial : SendOutcome
  retry : SendOutcome
deriving DecidableEq, Repr

/-- The check `response.status_code in [200, 201, 202]`. -/
def isSuccessStatus (s : Nat) : Bool := s == 200 || s == 201 || s == 202

/-- A send outcome counted as a success. -/
def outcomeSuccess : SendOutcome → Bool
  | .response s => isSuccessStatus s
  | _ => false

/-- Line 175: `"regional attribute" in body.lower() and
getattr(e, 'status_code', 0) == 401`. -/
def regionalRetryTrigger : SendOutcome → Bool
  | .httpError st body => st == 401 && containsSub "regional attribute".data (pyLower body)
  | _ => false

/-- Observable result of the send loop: the success count, which recipients
were retried (in order), and the final EU-residency flag. -/
structure EmailRunResult where
  successCount : Nat
  retriedFlags : List Bool
  finalEu : Bool
deriving DecidableEq, Repr

/-- The send loop of `EmailerTool._run` (lines 131-220): one message per
recipient; a regional-mismatch `HTTPError` flips the region
(`_switch_region_and_reinit`, lines 67-83) and retries that recipient once;
every other failure only skips that recipient. -/
def emailSendLoop (eu : Bool) : List RecipientSend → EmailRunResult
  | [] => ⟨0, [], eu⟩
  | r :: rs =>
    if outcomeSuccess r.initial then
      let rest := emailSendLoop eu rs
      ⟨rest.successCount + 1, false :: rest.retriedFlags, rest.finalEu⟩
    else if regionalRetryTrigger r.initial then
      let rest := emailSendLoop (!eu) rs
      ⟨(if outcomeSuccess r.retry then 1 else 0) + rest.successCount,
        true :: rest.retriedFlags, rest.finalEu⟩
    else
      let rest := emailSendLoop eu rs
      ⟨rest.successCount, false :: rest.retriedFlags, rest.finalEu⟩

/-! ## Lemmas about the string utilities -/

theorem pfxOf_nil_left (b : List Char) : ([] : List Char).isPrefixOf b = true := by
  rw [ List.isPrefixOf_iff_prefix]
  exact List.nil_prefix

theorem pfxOf_cons_nil (a : Char) (as : List Char) : (a :: as).isPrefixOf [] = false := rfl

theorem pfxOf_cons_cons (a c : Char) (as cs : List Char) :
    (a :: as).isPrefixOf (c :: cs) = (a == c && as.isPrefixOf cs) := rfl

theorem pfxOf_append_self (p b : List Char) : p.isPrefixOf (p ++ b) = true := by
  rw [ List.isPrefixOf_iff_prefix]
  exact List.prefix_append p b

theorem pfxOf_trans {p q l : List Char} (h1 : p.isPrefixOf q = true)
    (h2 : q.isPrefixOf l = true) : p.isPrefixOf l = true := by
  rw [ List.isPrefixOf_iff_prefix] at h1 h2 ⊢
  exact h1.trans h2

theorem pfxOf_newline {p : List Char} (hp : '\n' ∉ p) (a b : List Char) :
    p.isPrefixOf (a ++ '\n' :: b) = p.isPrefixOf a := by
  induction p generalizing a with
  | nil => rw [pfxOf_nil_left, pfxOf_nil_left]
  | cons q qs ih =>
    have hq : q ≠ '\n' := fun h => hp (h ▸ List.mem_cons_self q qs)
    have hqs : '\n' ∉ qs := fun h => hp (List.mem_cons_of_mem q h)
    cases a with
    | nil =>
      rw [List.nil_append, pfxOf_cons_cons, pfxOf_cons_nil]
      have : (q == '\n') = false := by
        cases hx : q == '\n' with
        | true => exact absurd (by exact eq_of_beq hx) hq
        | false => rfl
      rw [this, Bool.false_and]
    | cons x a' =>
      rw [List.cons_append, pfxOf_cons_cons, pfxOf_cons_cons, ih hqs]

theorem countSub_cons (p : List Char) (c : Char) (cs : List Char) :
    countSub p (c :: cs) = (if p.isPrefixOf (c :: cs) then 1 else 0) + countSub p cs := rfl

theorem countSub_pos_of_pfx {p s : List Char} (h : p.isPrefixOf s = true) :
    1 ≤ countSub p s := by
  cases s with
  | nil =>
    cases p with
    | nil => simp [countSub]
    | cons q qs => rw [pfxOf_cons_nil] at h; exact Bool.noConfusion h
  | cons c cs => simp [countSub_cons, h]

theorem pfx_false_of_countSub_zero {p s : List Char} (h : countSub p s = 0) :
    p.isPrefixOf s = false := by
  by_contra hb
  have h1 : p.isPrefixOf s = true := by
    cases hx : p.isPrefixOf s with
    | false => exact absurd hx hb
    | true => rfl
  have := countSub_pos_of_pfx h1
  omega

theorem countSub_le_append_left (p a b : List Char) :
    countSub p a ≤ countSub p (a ++ b) := by
  induction a with
  | nil =>
    cases b with
    | nil => exact Nat.le_refl _
    | cons c cs =>
      cases p with
      | nil => simp [countSub]
      | cons q qs => simp [countSub]
  | cons c cs ih =>
    simp only [List.cons_append, countSub_cons]
    have hpf : p.isPrefixOf (c :: cs) = true → p.isPrefixOf (c :: (cs ++ b)) = true := by
      intro h
      have h2 : (c :: cs).isPrefixOf (c :: cs ++ b) = true := pfxOf_append_self _ b
      rw [List.cons_append] at h2
      exact pfxOf_trans h h2
    cases hx : p.isPrefixOf (c :: cs) with
    | true => rw [hpf hx]; simp; omega
    | false => cases hy : p.isPrefixOf (c :: (cs ++ b)) <;> simp <;> omega

theorem countSub_le_append_right (p a b : List Char) :
    countSub p b ≤ countSub p (a ++ b) := by
  induction a with
  | nil => exact Nat.le_refl _
  | cons c cs ih =>
    simp only [List.cons_append, countSub_cons]
    omega

theorem countSub_append_newline {p : List Char} (hne : p ≠ []) (hp : '\n' ∉ p)
    (a b : List Char) : countSub p (a ++ '\n' :: b) = countSub p a + countSub p b := by
  induction a with
  | nil =>
    simp only [List.nil_append, countSub_cons]
    have hx : p.isPrefixOf ('\n' :: b) = false := by
      have := pfxOf_newline hp [] b
      simp only [List.nil_append] at this
      rw [this]
      cases p with
      | nil => exact absurd rfl hne
      | cons q qs => rfl
    rw [hx]
    cases p with
    | nil => exact absurd rfl hne
    | cons q qs => simp [countSub]
  | cons c cs ih =>
    simp only [List.cons_append, countSub_cons, ih]
    rw [← List.cons_append c cs ('\n' :: b), pfxOf_newline hp (c :: cs) b]
    omega

theorem countSub_ge_one (p a b : List Char) : 1 ≤ countSub p (a ++ (p ++ b)) := by
  have h1 : 1 ≤ countSub p (p ++ b) := countSub_pos_of_pfx (pfxOf_append_self p b)
  exact h1.trans (countSub_le_append_right p a (p ++ b))

theorem countSub_cons_zero {p : List Char} {c : Char} {cs : List Char}
    (h : countSub p (c :: cs) = 0) : countSub p cs = 0 := by
  have hc : countSub p (c :: cs) =
      (if p.isPrefixOf (c :: cs) then 1 else 0) + countSub p cs := rfl
  rw [h] at hc
  cases hx : p.isPrefixOf (c :: cs) <;> rw [hx] at hc <;> simp at hc <;> omega

theorem containsSub_false_iff (p s : List Char) :
    containsSub p s = false ↔ countSub p s = 0 := by
  induction s with
  | nil =>
    cases p with
    | nil => simp [containsSub, countSub]
    | cons q qs => simp [containsSub, countSub]
  | cons c cs ih =>
    simp only [containsSub, countSub_cons, Bool.or_eq_false_iff]
    constructor
    · rintro ⟨h1, h2⟩
      rw [h1, ih.mp h2]
      simp
    · intro h
      have h1 : p.isPrefixOf (c :: cs) = false := by
        by_contra hb
        have h1' : p.isPrefixOf (c :: cs) = true := by
          cases hx : p.isPrefixOf (c :: cs) with
          | false => exact absurd hx hb
          | true => rfl
        rw [h1'] at h
        simp at h
      rw [h1] at h
      simp at h
      exact ⟨h1, ih.mpr h⟩

theorem containsSub_true_iff (p s : List Char) :
    containsSub p s = true ↔ countSub p s ≠ 0 := by
  constructor
  · intro h hz
    have := (containsSub_false_iff p s).mpr hz
    rw [h] at this
    exact Bool.noConfusion this
  · intro h
    cases hx : containsSub p s with
    | false => exact absurd ((containsSub_false_iff p s).mp hx) h
    | true => rfl

/-! ## Lemmas about the regex substitution -/

theorem pat1_eq : "\n## ".data = '\n' :: '#' :: '#' :: ' ' :: [] := rfl

theorem pat2_eq : "\n### ".data = '\n' :: '#' :: '#' :: '#' :: ' ' :: [] := rfl

theorem lazyScan_append_eq (t : List Char) : (lazyScan t).1 ++ (lazyScan t).2 = t := by
  induction t with
  | nil => rfl
  | cons c cs ih =>
    simp only [lazyScan]
    cases hx : lookaheadOk (c :: cs) with
    | true => simp
    | false => simpa using ih

theorem lazyScan_snd_length (t : List Char) : (lazyScan t).2.length ≤ t.length := by
  induction t with
  | nil => simp [lazyScan]
  | cons c cs ih =>
    simp only [lazyScan]
    cases hx : lookaheadOk (c :: cs) with
    | true => simp
    | false =>
      simp only [Bool.false_eq_true, if_false]
      calc (lazyScan cs).2.length ≤ cs.length := ih
        _ ≤ (c :: cs).length := by simp

theorem lookahead_nn (d : List Char) : lookaheadOk ('\n' :: '\n' :: d) = false := by
  have e1 : ('#' == '\n') = false := by decide
  have e2 : (('\n' :: d) == ([] : List Char)) = false := rfl
  simp [lookaheadOk, pat1_eq, pat2_eq, pfxOf_cons_cons, e1, e2, List.isEmpty]

theorem pfx_nl_boundary {ps : List Char} (hne : ps ≠ []) (hp : '\n' ∉ ps) (f x : List Char) :
    ('\n' :: ps).isPrefixOf (f ++ '\n' :: '\n' :: x) = ('\n' :: ps).isPrefixOf f := by
  cases f with
  | nil =>
    rw [List.nil_append, pfxOf_cons_cons]
    have h2 := pfxOf_newline hp ([] : List Char) x
    rw [List.nil_append] at h2
    rw [h2]
    cases ps with
    | nil => exact absurd rfl hne
    | cons q qs => rw [pfxOf_cons_nil, pfxOf_cons_nil]; simp
  | cons c f' =>
    rw [List.cons_append, pfxOf_cons_cons, pfxOf_cons_cons]
    rw [pfxOf_newline hp f' ('\n' :: x)]

theorem lazyScan_shape {f : List Char} (h1 : countSub "\n## ".data f = 0)
    (h2 : countSub "\n### ".data f = 0) {d : List Char}
    (hd : lookaheadOk ('\n' :: d) = true) :
    lazyScan (f ++ '\n' :: '\n' :: d) = (f ++ ['\n'], '\n' :: d) := by
  induction f with
  | nil =>
    rw [List.nil_append]
    simp only [lazyScan, lookahead_nn, Bool.false_eq_true, if_false, hd, if_pos rfl]
    simp
  | cons c f' ih =>
    have h1' : countSub "\n## ".data f' = 0 := countSub_cons_zero h1
    have h2' : countSub "\n### ".data f' = 0 := countSub_cons_zero h2
    have hb1 : ("\n## ".data).isPrefixOf ((c :: f') ++ '\n' :: '\n' :: d) = false := by
      rw [pat1_eq]
      rw [pfx_nl_boundary (by decide) (by decide)]
      rw [← pat1_eq]
      exact pfx_false_of_countSub_zero h1
    have hb2 : ("\n### ".data).isPrefixOf ((c :: f') ++ '\n' :: '\n' :: d) = false := by
      rw [pat2_eq]
      rw [pfx_nl_boundary (by decide) (by decide)]
      rw [← pat2_eq]
      exact pfx_false_of_countSub_zero h2
    have hla : lookaheadOk ((c :: f') ++ '\n' :: '\n' :: d) = false := by
      have hnil : ((f' ++ '\n' :: '\n' :: d) == ([] : List Char)) = false := by
        cases f' <;> rfl
      simp only [lookaheadOk, hb1, hb2, List.cons_append, Bool.or_eq_false_iff]
      refine ⟨⟨⟨?_, ?_⟩, by simp⟩, ?_⟩
      · rw [← List.cons_append]; exact hb1
      · rw [← List.cons_append]; exact hb2
      · show ((c :: (f' ++ '\n' :: '\n' :: d)) == ['\n']) = false
        show ((c == '\n') && ((f' ++ '\n' :: '\n' :: d) == ([] : List Char))) = false
        rw [hnil, Bool.and_false]
    rw [List.cons_append]
    simp only [lazyScan]
    rw [← List.cons_append, hla]
    simp only [Bool.false_eq_true, if_false]
    rw [List.cons_append] at *
    rw [ih h1' h2']

theorem summaryHeading_ne_nil : summaryHeading ≠ [] := by decide

theorem newline_not_mem_summaryHeading : '\n' ∉ summaryHeading := by decide

theorem summaryHeading_pfx_nn : summaryHeading.isPrefixOf summaryHeadingNN = true :=
  pfxOf_append_self summaryHeading _

theorem subAllF_zero (tmpl : List TmplItem) (s : List Char) : subAllF tmpl 0 s = s := rfl

theorem subAllF_succ (tmpl : List TmplItem) (fuel : Nat) (s : List Char) :
    subAllF tmpl (fuel + 1) s =
      if summaryHeadingNN.isPrefixOf s then
        expandTemplate (lazyScan (s.drop summaryHeadingNN.length)).1 tmpl ++
          subAllF tmpl fuel (lazyScan (s.drop summaryHeadingNN.length)).2
      else
        match s with
        | [] => []
        | c :: cs => c :: subAllF tmpl fuel cs := rfl

theorem subAllF_id {s : List Char} (tmpl : List TmplItem) (h : countSub summaryHeading s = 0) :
    ∀ fuel, s.length ≤ fuel → subAllF tmpl fuel s = s := by
  induction s with
  | nil =>
    intro fuel _
    cases fuel with
    | zero => rfl
    | succ n =>
      rw [subAllF_succ]
      have : summaryHeadingNN.isPrefixOf ([] : List Char) = false := by decide
      rw [this]
      simp
  | cons c cs ih =>
    intro fuel hlen
    cases fuel with
    | zero => rfl
    | succ n =>
      rw [subAllF_succ]
      have hpx : summaryHeadingNN.isPrefixOf (c :: cs) = false := by
        cases hx : summaryHeadingNN.isPrefixOf (c :: cs) with
        | false => rfl
        | true =>
          have hH : summaryHeading.isPrefixOf (c :: cs) = true :=
            pfxOf_trans summaryHeading_pfx_nn hx
          have := countSub_pos_of_pfx hH
          omega
      rw [hpx]
      simp only [Bool.false_eq_true, if_false]
      have hcs : countSub summaryHeading cs = 0 := countSub_cons_zero h
      have hlen' : cs.length ≤ n := by
        simp only [List.length_cons] at hlen
        omega
      rw [ih hcs n hlen']

theorem parseTemplateF_nil (n fuel : Nat) : parseTemplateF n fuel [] = some [] := by
  cases fuel <;> rfl

theorem parseTemplateF_succ_cons (n fuel : Nat) (c : Char) (cs : List Char) :
    parseTemplateF n (fuel + 1) (c :: cs) =
      if c = '\\' then
        match parseTemplateEsc n cs with
        | none => none
        | some (its, rest2) =>
          (parseTemplateF n fuel rest2).map (fun items => its ++ items)
      else (parseTemplateF n fuel cs).map (fun items => TmplItem.lit c :: items) := rfl

theorem parseTemplateF_cons_of_ne (n fuel : Nat) {c : Char} (hc : c ≠ '\\') (cs : List Char) :
    parseTemplateF n (fuel + 1) (c :: cs) =
      (parseTemplateF n fuel cs).map (fun items => TmplItem.lit c :: items) := by
  rw [parseTemplateF_succ_cons, if_neg hc]

/-- A backslash-free replacement template parses to its own characters as
literals, for every group count. -/
theorem parseTemplateF_lits {t : List Char} (h : '\\' ∉ t) :
    ∀ fuel, t.length ≤ fuel → ∀ n, parseTemplateF n fuel t = some (t.map TmplItem.lit) := by
  induction t with
  | nil =>
    intro fuel _ n
    rw [parseTemplateF_nil]
    rfl
  | cons c cs ih =>
    intro fuel hlen n
    have hc : c ≠ '\\' := fun hcc => h (hcc ▸ List.mem_cons_self c cs)
    have hcs : '\\' ∉ cs := fun hm => h (List.mem_cons_of_mem c hm)
    cases fuel with
    | zero =>
      simp only [List.length_cons] at hlen
      exact absurd hlen (by omega)
    | succ fuel' =>
      have hlen' : cs.length ≤ fuel' := by
        simp only [List.length_cons] at hlen
        omega
      rw [parseTemplateF_cons_of_ne n fuel' hc cs, ih hcs fuel' hlen' n]
      rfl

theorem parseTemplate_no_backslash {t : List Char} (h : '\\' ∉ t) (n : Nat) :
    parseTemplate n t = some (t.map TmplItem.lit) :=
  parseTemplateF_lits h t.length (Nat.le_refl _) n

theorem expandTemplate_map_lit (g t : List Char) :
    expandTemplate g (t.map TmplItem.lit) = t := by
  induction t with
  | nil => rfl
  | cons c cs ih =>
    show c :: expandTemplate g (cs.map TmplItem.lit) = c :: cs
    rw [ih]

theorem backslash_not_mem_heading : '\\' ∉ summaryHeadingNN := by decide

/-- The replacement string built from a backslash-free digest is itself
backslash-free. -/
theorem no_backslash_newSummarySection {F : List Char} (h : '\\' ∉ F) :
    '\\' ∉ newSummarySection F := by
  unfold newSummarySection
  intro hmem
  rcases List.mem_append.mp hmem with hhf | hnl
  · rcases List.mem_append.mp hhf with hh | hf
    · exact backslash_not_mem_heading hh
    · exact h hf
  · exact absurd hnl (by decide)

/-- For a backslash-free digest, the replacement template is parsed into
pure literals (no escape is processed and no error is raised). -/
theorem parseTemplate_newSummarySection {F : List Char} (h : '\\' ∉ F) :
    parseTemplate 2 (newSummarySection F) =
      some ((newSummarySection F).map TmplItem.lit) :=
  parseTemplate_no_backslash (no_backslash_newSummarySection h) 2

theorem countSub_self_heading : countSub summaryHeading summaryHeading = 1 := by decide

theorem countSub_heading_nil : countSub summaryHeading [] = 0 := by decide

/-- Occurrence count across the canonical decomposition at a heading. -/
theorem countSub_heading_split (A B : List Char) :
    countSub summaryHeading (A ++ summaryHeadingNN ++ B) =
      countSub summaryHeading (A ++ summaryHeading) + countSub summaryHeading B := by
  have h1 : A ++ summaryHeadingNN ++ B = (A ++ summaryHeading) ++ '\n' :: ('\n' :: B) := by
    show A ++ (summaryHeading ++ '\n' :: '\n' :: []) ++ B = _
    simp [List.append_assoc]
  rw [h1, countSub_append_newline summaryHeading_ne_nil newline_not_mem_summaryHeading]
  have h2 : countSub summaryHeading ('\n' :: B) = countSub summaryHeading B := by
    have := countSub_append_newline summaryHeading_ne_nil newline_not_mem_summaryHeading [] B
    rw [List.nil_append, countSub_heading_nil] at this
    omega
  rw [h2]

theorem countSub_append_heading_pos (A : List Char) :
    1 ≤ countSub summaryHeading (A ++ summaryHeading) := by
  have := countSub_ge_one summaryHeading A []
  rw [List.append_nil] at this
  exact this

theorem subAllF_structure (tmpl : List TmplItem) :
    ∀ (A : List Char) {B : List Char},
    countSub summaryHeading (A ++ summaryHeadingNN ++ B) = 1 →
    ∀ fuel, (A ++ summaryHeadingNN ++ B).length ≤ fuel →
    subAllF tmpl fuel (A ++ summaryHeadingNN ++ B) =
      A ++ expandTemplate (lazyScan B).1 tmpl ++ (lazyScan B).2 := by
  intro A
  induction A with
  | nil =>
    intro B hcount fuel hlen
    simp only [List.nil_append] at hcount hlen ⊢
    have hB : countSub summaryHeading B = 0 := by
      have hs := countSub_heading_split [] B
      simp only [List.nil_append] at hs
      rw [hcount, countSub_self_heading] at hs
      omega
    have hrest : countSub summaryHeading (lazyScan B).2 = 0 := by
      have hle := countSub_le_append_right summaryHeading (lazyScan B).1 (lazyScan B).2
      rw [lazyScan_append_eq B, hB] at hle
      omega
    have hpos : 1 ≤ summaryHeadingNN.length := by decide
    cases fuel with
    | zero =>
      rw [List.length_append] at hlen
      omega
    | succ n =>
      have hlz := lazyScan_snd_length B
      rw [List.length_append] at hlen
      have hid : subAllF tmpl n (lazyScan B).2 = (lazyScan B).2 :=
        subAllF_id tmpl hrest n (by omega)
      rw [subAllF_succ, if_pos (pfxOf_append_self summaryHeadingNN B), List.drop_left, hid]
  | cons a A' ih =>
    intro B hcount fuel hlen
    have hform : (a :: A') ++ summaryHeadingNN ++ B = a :: (A' ++ summaryHeadingNN ++ B) := by
      simp
    rw [hform] at hcount hlen ⊢
    have htail : 1 ≤ countSub summaryHeading (A' ++ summaryHeadingNN ++ B) := by
      have hs := countSub_heading_split A' B
      have hp := countSub_append_heading_pos A'
      omega
    have hcount' : countSub summaryHeading (A' ++ summaryHeadingNN ++ B) = 1 := by
      have hc := countSub_cons summaryHeading a (A' ++ summaryHeadingNN ++ B)
      rw [hcount] at hc
      split at hc <;> omega
    have hpx : summaryHeadingNN.isPrefixOf (a :: (A' ++ summaryHeadingNN ++ B)) = false := by
      cases hx : summaryHeadingNN.isPrefixOf (a :: (A' ++ summaryHeadingNN ++ B)) with
      | false => rfl
      | true =>
        have hH : summaryHeading.isPrefixOf (a :: (A' ++ summaryHeadingNN ++ B)) = true :=
          pfxOf_trans summaryHeading_pfx_nn hx
        have hc := countSub_cons summaryHeading a (A' ++ summaryHeadingNN ++ B)
        rw [hcount, hH] at hc
        rw [if_pos (Eq.refl true)] at hc
        exfalso
        omega
    have hnpx : ¬(summaryHeadingNN.isPrefixOf (a :: (A' ++ summaryHeadingNN ++ B)) = true) := by
      rw [hpx]
      exact Bool.false_ne_true
    cases fuel with
    | zero =>
      simp only [List.length_cons] at hlen
      omega
    | succ n =>
      rw [subAllF_succ, if_neg hnpx]
      have hlen' : (A' ++ summaryHeadingNN ++ B).length ≤ n := by
        simp only [List.length_cons] at hlen
        omega
      show a :: subAllF tmpl n (A' ++ summaryHeadingNN ++ B) =
        (a :: A') ++ expandTemplate (lazyScan B).1 tmpl ++ (lazyScan B).2
      rw [ih hcount' n hlen']
      simp

theorem subAll_structure (tmpl : List TmplItem) (A : List Char) {B : List Char}
    (hcount : countSub summaryHeading (A ++ summaryHeadingNN ++ B) = 1) :
    subAll tmpl (A ++ summaryHeadingNN ++ B) =
      A ++ expandTemplate (lazyScan B).1 tmpl ++ (lazyScan B).2 :=
  subAllF_structure tmpl A hcount _ (Nat.le_refl _)

/-- On a one-heading README, substituting with an all-literal template (the
backslash-free case) writes the replacement text itself. -/
theorem subAll_lits (F A : List Char) {B : List Char}
    (hcount : countSub summaryHeading (A ++ summaryHeadingNN ++ B) = 1) :
    subAll ((newSummarySection F).map TmplItem.lit) (A ++ summaryHeadingNN ++ B) =
      A ++ newSummarySection F ++ (lazyScan B).2 := by
  rw [subAll_structure ((newSummarySection F).map TmplItem.lit) A hcount,
    expandTemplate_map_lit]

theorem countSub_nil_of_ne {p : List Char} (hne : p ≠ []) : countSub p [] = 0 := by
  cases p with
  | nil => exact absurd rfl hne
  | cons q qs => simp [countSub]

theorem countSub_cons_newline {p : List Char} (hne : p ≠ []) (hp : '\n' ∉ p) (b : List Char) :
    countSub p ('\n' :: b) = countSub p b := by
  have := countSub_append_newline hne hp [] b
  rw [List.nil_append, countSub_nil_of_ne hne] at this
  omega

theorem countSub_take_zero {p r : List Char} (h : countSub p r = 0) (i : Nat) :
    countSub p (r.take i) = 0 := by
  have hle := countSub_le_append_left p (r.take i) (r.drop i)
  rw [List.take_append_drop, h] at hle
  omega

theorem countSub_drop_zero {p r : List Char} (h : countSub p r = 0) (i : Nat) :
    countSub p (r.drop i) = 0 := by
  have hle := countSub_le_append_right p (r.take i) (r.drop i)
  rw [List.take_append_drop, h] at hle
  omega

theorem findSub_some_pfx {pat s : List Char} {i : Nat} (h : findSub pat s = some i) :
    pat.isPrefixOf (s.drop i) = true := by
  induction s generalizing i with
  | nil =>
    simp only [findSub] at h
    cases hx : pat.isPrefixOf ([] : List Char) with
    | false => rw [hx] at h; simp at h
    | true =>
      rw [hx] at h
      simp at h
      rw [← h]
      simpa using hx
  | cons c cs ih =>
    simp only [findSub] at h
    cases hx : pat.isPrefixOf (c :: cs) with
    | true =>
      rw [hx] at h
      simp at h
      rw [← h]
      simpa using hx
    | false =>
      rw [hx] at h
      simp only [Bool.false_eq_true, if_false] at h
      obtain ⟨j, hj, hij⟩ := Option.map_eq_some'.mp h
      rw [← hij]
      simpa using ih hj

theorem findSub_none_of_count_zero {pat s : List Char} (h : countSub pat s = 0) :
    findSub pat s = none := by
  induction s with
  | nil =>
    have hx : pat.isPrefixOf ([] : List Char) = false := pfx_false_of_countSub_zero h
    simp [findSub, hx]
  | cons c cs ih =>
    have hx : pat.isPrefixOf (c :: cs) = false := pfx_false_of_countSub_zero h
    simp [findSub, hx, ih (countSub_cons_zero h)]

theorem findSub_prefix_first {pat : List Char} :
    ∀ (pre post : List Char), pat.isPrefixOf post = true →
    (∀ j, j < pre.length → pat.isPrefixOf ((pre ++ post).drop j) = false) →
    findSub pat (pre ++ post) = some pre.length := by
  intro pre
  induction pre with
  | nil =>
    intro post hpf _
    rw [List.nil_append]
    cases post with
    | nil =>
      simp only [findSub]
      rw [hpf]
      rfl
    | cons c cs =>
      simp only [findSub]
      rw [hpf]
      rfl
  | cons a pre' ih =>
    intro post hpf hmin
    have h0 : pat.isPrefixOf ((a :: pre') ++ post) = false := by
      have := hmin 0 (by simp)
      simpa using this
    rw [List.cons_append]
    simp only [findSub]
    rw [List.cons_append] at h0
    rw [h0]
    simp only [Bool.false_eq_true, if_false]
    have hmin' : ∀ j, j < pre'.length → pat.isPrefixOf ((pre' ++ post).drop j) = false := by
      intro j hj
      have := hmin (j + 1) (by simp; omega)
      rw [List.cons_append] at this
      simpa using this
    rw [ih post hpf hmin']
    simp

/-- The canonical occurrence count of a freshly inserted digest section. -/
theorem countSub_fresh_section {pre F post : List Char}
    (hpre : countSub summaryHeading pre = 0) (hF : countSub summaryHeading F = 0)
    (hpost : countSub summaryHeading post = 0) :
    countSub summaryHeading
      ((pre ++ ('\n' :: [])) ++ summaryHeadingNN ++ (F ++ '\n' :: '\n' :: post)) = 1 := by
  rw [countSub_heading_split]
  have h1 : (pre ++ ('\n' :: [])) ++ summaryHeading = pre ++ '\n' :: summaryHeading := by
    simp
  rw [h1, countSub_append_newline summaryHeading_ne_nil newline_not_mem_summaryHeading,
    countSub_append_newline summaryHeading_ne_nil newline_not_mem_summaryHeading,
    countSub_cons_newline summaryHeading_ne_nil newline_not_mem_summaryHeading,
    hpre, hF, hpost, countSub_self_heading]

/-- The anchor-found branch of `_insert_new_summary_section`, rearranged into
the canonical decomposition at the inserted heading. -/
theorem insert_shape_anchor {r : List Char} {i : Nat} (F : List Char)
    (hfind : findSub "## Features".data r = some i) :
    insertNewSummarySection r F =
      (r.take i ++ ('\n' :: [])) ++ summaryHeadingNN ++ (F ++ '\n' :: '\n' :: r.drop i) := by
  unfold insertNewSummarySection
  rw [hfind]
  simp [List.append_assoc]

/-- The no-anchor branch of `_insert_new_summary_section`, rearranged into
the canonical decomposition at the appended heading. -/
theorem insert_shape_noanchor {r : List Char} (F : List Char)
    (hfind : findSub "## Features".data r = none) :
    insertNewSummarySection r F =
      (r ++ ('\n' :: '\n' :: [])) ++ summaryHeadingNN ++ (F ++ '\n' :: '\n' :: []) := by
  unfold insertNewSummarySection
  rw [hfind]
  simp [List.append_assoc]

/-- Occurrence count of the appended fresh section. -/
theorem countSub_fresh_section2 {r F : List Char}
    (hr : countSub summaryHeading r = 0) (hF : countSub summaryHeading F = 0) :
    countSub summaryHeading
      ((r ++ ('\n' :: '\n' :: [])) ++ summaryHeadingNN ++ (F ++ '\n' :: '\n' :: [])) = 1 := by
  rw [countSub_heading_split]
  have h1 : (r ++ ('\n' :: '\n' :: [])) ++ summaryHeading = r ++ '\n' :: ('\n' :: summaryHeading) := by
    simp
  rw [h1, countSub_append_newline summaryHeading_ne_nil newline_not_mem_summaryHeading,
    countSub_cons_newline summaryHeading_ne_nil newline_not_mem_summaryHeading,
    countSub_append_newline summaryHeading_ne_nil newline_not_mem_summaryHeading,
    countSub_cons_newline summaryHeading_ne_nil newline_not_mem_summaryHeading,
    hr, hF, countSub_self_heading, countSub_nil_of_ne summaryHeading_ne_nil]

/-- An upsert on a README in canonical form (exactly one digest heading,
followed by a blank line) follows the regex-substitution path; with a
backslash-free digest the replacement template is all literals, so the
substitution succeeds and writes the replacement text. -/
theorem update_on_canonical {A B F : List Char} (hFb : '\\' ∉ F)
    (hcount : countSub summaryHeading (A ++ summaryHeadingNN ++ B) = 1) :
    updateReadmeContent (some (A ++ summaryHeadingNN ++ B)) F =
      some (A ++ newSummarySection F ++ (lazyScan B).2) := by
  have hc1 : containsSub summaryHeading (A ++ summaryHeadingNN ++ B) = true :=
    (containsSub_true_iff _ _).mpr (by omega)
  have hgeNN : 1 ≤ countSub summaryHeadingNN (A ++ summaryHeadingNN ++ B) := by
    have h := countSub_ge_one summaryHeadingNN A B
    rw [← List.append_assoc] at h
    exact h
  have hc2 : containsSub summaryHeadingNN (A ++ summaryHeadingNN ++ B) = true :=
    (containsSub_true_iff _ _).mpr (by omega)
  show (if containsSub summaryHeading (A ++ summaryHeadingNN ++ B) = true then
      updateExistingSummarySection (A ++ summaryHeadingNN ++ B) F
    else some (insertNewSummarySection (A ++ summaryHeadingNN ++ B) F)) = _
  rw [if_pos hc1]
  unfold updateExistingSummarySection
  rw [if_pos hc2, parseTemplate_newSummarySection hFb]
  show some (subAll ((newSummarySection F).map TmplItem.lit)
    (A ++ summaryHeadingNN ++ B)) = _
  rw [subAll_lits F A hcount]

/-- An upsert on a README whose text does not contain the digest heading
follows the insertion path (an f-string, never raising). -/
theorem update_on_fresh {r : List Char} (F : List Char)
    (hr : countSub summaryHeading r = 0) :
    updateReadmeContent (some r) F = some (insertNewSummarySection r F) := by
  have hc1 : containsSub summaryHeading r = false := (containsSub_false_iff _ _).mpr hr
  show (if containsSub summaryHeading r = true then
      updateExistingSummarySection r F
    else some (insertNewSummarySection r F)) = _
  rw [if_neg (by rw [hc1]; exact Bool.false_ne_true)]

theorem lookahead_anchor {D : List Char} (h : ("## Features".data).isPrefixOf D = true) :
    lookaheadOk ('\n' :: D) = true := by
  have h3 : (('#' :: '#' :: ' ' :: []) : List Char).isPrefixOf D = true :=
    pfxOf_trans (p := '#' :: '#' :: ' ' :: []) (by decide) h
  have hfirst : ("\n## ".data).isPrefixOf ('\n' :: D) = true := by
    rw [pat1_eq, pfxOf_cons_cons, h3]
    decide
  unfold lookaheadOk
  rw [hfirst]
  rfl

theorem lookahead_newline_nil : lookaheadOk ('\n' :: []) = true := by decide

/-- Claim C1 (amended).  The README upserter is not idempotent: starting from a
README without the digest heading, whose formatted digest text is
backslash-free (so the replacement template is all literals and `re.sub`
raises nothing) and contains neither the heading nor a `\n## ` / `\n### `
line marker, the first upsert succeeds, and a second identical upsert on its
output succeeds and reproduces that text except that exactly one extra
newline is inserted at the end of the digest section (the separator grows
from a blank line to a blank line plus an empty line); nothing else
changes. -/
theorem c1_second_upsert_adds_one_newline (c t d r : List Char)
    (hr : countSub summaryHeading r = 0)
    (hF0 : countSub summaryHeading (formatDailySummary c t d) = 0)
    (hF1 : countSub "\n## ".data (formatDailySummary c t d) = 0)
    (hF2 : countSub "\n### ".data (formatDailySummary c t d) = 0)
    (hFb : '\\' ∉ formatDailySummary c t d) :
    ∃ X Y : List Char,
      upsertReadme (some r) c t d = some (X ++ '\n' :: '\n' :: Y) ∧
      upsertReadme (some (X ++ '\n' :: '\n' :: Y)) c t d =
        some (X ++ '\n' :: '\n' :: '\n' :: Y) := by
  have e1 : upsertReadme (some r) c t d =
      some (insertNewSummarySection r (formatDailySummary c t d)) :=
    update_on_fresh (formatDailySummary c t d) hr
  cases hfind : findSub "## Features".data r with
  | some i =>
    have hshape := insert_shape_anchor (formatDailySummary c t d) hfind
    have hcnt : countSub summaryHeading
        ((r.take i ++ ('\n' :: [])) ++ summaryHeadingNN ++
          (formatDailySummary c t d ++ '\n' :: '\n' :: r.drop i)) = 1 :=
      countSub_fresh_section (countSub_take_zero hr i) hF0 (countSub_drop_zero hr i)
    have hLS : lazyScan (formatDailySummary c t d ++ '\n' :: '\n' :: r.drop i) =
        (formatDailySummary c t d ++ ['\n'], '\n' :: r.drop i) :=
      lazyScan_shape hF1 hF2 (lookahead_anchor (findSub_some_pfx hfind))
    have e2 : upsertReadme
        (some ((r.take i ++ ('\n' :: [])) ++ summaryHeadingNN ++
          (formatDailySummary c t d ++ '\n' :: '\n' :: r.drop i))) c t d =
        some ((r.take i ++ ('\n' :: [])) ++
          newSummarySection (formatDailySummary c t d) ++ ('\n' :: r.drop i)) := by
      show updateReadmeContent
        (some ((r.take i ++ ('\n' :: [])) ++ summaryHeadingNN ++
          (formatDailySummary c t d ++ '\n' :: '\n' :: r.drop i)))
        (formatDailySummary c t d) = _
      rw [update_on_canonical hFb hcnt, hLS]
    refine ⟨(r.take i ++ ('\n' :: [])) ++ summaryHeadingNN ++ formatDailySummary c t d,
      r.drop i, ?_, ?_⟩
    · rw [e1, hshape]
      simp [List.append_assoc]
    · have hXeq : ((r.take i ++ ('\n' :: [])) ++ summaryHeadingNN ++
          formatDailySummary c t d) ++ '\n' :: '\n' :: r.drop i =
          (r.take i ++ ('\n' :: [])) ++ summaryHeadingNN ++
            (formatDailySummary c t d ++ '\n' :: '\n' :: r.drop i) := by
        simp [List.append_assoc]
      rw [hXeq, e2]
      unfold newSummarySection
      simp [List.append_assoc]
  | none =>
    have hshape := insert_shape_noanchor (formatDailySummary c t d) hfind
    have hcnt : countSub summaryHeading
        ((r ++ ('\n' :: '\n' :: [])) ++ summaryHeadingNN ++
          (formatDailySummary c t d ++ '\n' :: '\n' :: [])) = 1 :=
      countSub_fresh_section2 hr hF0
    have hLS : lazyScan (formatDailySummary c t d ++ '\n' :: '\n' :: []) =
        (formatDailySummary c t d ++ ['\n'], '\n' :: []) :=
      lazyScan_shape hF1 hF2 lookahead_newline_nil
    have e2 : upsertReadme
        (some ((r ++ ('\n' :: '\n' :: [])) ++ summaryHeadingNN ++
          (formatDailySummary c t d ++ '\n' :: '\n' :: []))) c t d =
        some ((r ++ ('\n' :: '\n' :: [])) ++
          newSummarySection (formatDailySummary c t d) ++ ('\n' :: [])) := by
      show updateReadmeContent
        (some ((r ++ ('\n' :: '\n' :: [])) ++ summaryHeadingNN ++
          (formatDailySummary c t d ++ '\n' :: '\n' :: [])))
        (formatDailySummary c t d) = _
      rw [update_on_canonical hFb hcnt, hLS]
    refine ⟨(r ++ ('\n' :: '\n' :: [])) ++ summaryHeadingNN ++ formatDailySummary c t d,
      [], ?_, ?_⟩
    · rw [e1, hshape]
      simp [List.append_assoc]
    · have hXeq : ((r ++ ('\n' :: '\n' :: [])) ++ summaryHeadingNN ++
          formatDailySummary c t d) ++ '\n' :: '\n' :: ([] : List Char) =
          (r ++ ('\n' :: '\n' :: [])) ++ summaryHeadingNN ++
            (formatDailySummary c t d ++ '\n' :: '\n' :: []) := by
        simp [List.append_assoc]
      rw [hXeq, e2]
      unfold newSummarySection
      simp [List.append_assoc]

set_option maxRecDepth 4000 in
theorem countSub_tplIntro : countSub summaryHeading tplIntro.data = 1 := by decide

theorem tplRest_data :
    tplRest.data = tplRestA.data ++ '\n' :: (tplRestB.data ++ '\n' :: (tplRestC.data ++ '\n' :: (tplRestD.data ++ '\n' :: (tplRestE.data ++ '\n' :: (tplRestF.data ++ '\n' :: (tplRestG.data)))))) := by
  simp [tplRest, String.data_append]

set_option maxRecDepth 4000 in
theorem countSub_tplRest : countSub summaryHeading tplRest.data = 0 := by
  rw [tplRest_data]
  rw [countSub_append_newline summaryHeading_ne_nil newline_not_mem_summaryHeading,
    countSub_append_newline summaryHeading_ne_nil newline_not_mem_summaryHeading,
    countSub_append_newline summaryHeading_ne_nil newline_not_mem_summaryHeading,
    countSub_append_newline summaryHeading_ne_nil newline_not_mem_summaryHeading,
    countSub_append_newline summaryHeading_ne_nil newline_not_mem_summaryHeading,
    countSub_append_newline summaryHeading_ne_nil newline_not_mem_summaryHeading]
  have hA : countSub summaryHeading tplRestA.data = 0 := by decide
  have hB : countSub summaryHeading tplRestB.data = 0 := by decide
  have hC : countSub summaryHeading tplRestC.data = 0 := by decide
  have hD : countSub summaryHeading tplRestD.data = 0 := by decide
  have hE : countSub summaryHeading tplRestE.data = 0 := by decide
  have hF : countSub summaryHeading tplRestF.data = 0 := by decide
  have hG : countSub summaryHeading tplRestG.data = 0 := by decide
  omega

/-- The freshly created README contains the digest heading exactly once, as
long as the digest text itself does not contain it. -/
theorem countSub_create {F : List Char} (hF : countSub summaryHeading F = 0) :
    countSub summaryHeading (createNewReadme F) = 1 := by
  have hre : createNewReadme F =
      tplIntro.data ++ '\n' :: ('\n' :: (F ++ '\n' :: ('\n' :: tplRest.data))) := by
    unfold createNewReadme
    simp [List.append_assoc]
  rw [hre,
    countSub_append_newline summaryHeading_ne_nil newline_not_mem_summaryHeading,
    countSub_cons_newline summaryHeading_ne_nil newline_not_mem_summaryHeading,
    countSub_append_newline summaryHeading_ne_nil newline_not_mem_summaryHeading,
    countSub_cons_newline summaryHeading_ne_nil newline_not_mem_summaryHeading,
    countSub_tplIntro, countSub_tplRest, hF]

/-- After the substitution path, the digest heading still occurs exactly
once. -/
theorem countSub_after_canonical {A B F : List Char}
    (hcount : countSub summaryHeading (A ++ summaryHeadingNN ++ B) = 1)
    (hF : countSub summaryHeading F = 0) :
    countSub summaryHeading (A ++ newSummarySection F ++ (lazyScan B).2) = 1 := by
  have hs := countSub_heading_split A B
  have hp := countSub_append_heading_pos A
  have hAH : countSub summaryHeading (A ++ summaryHeading) = 1 := by omega
  have hB : countSub summaryHeading B = 0 := by omega
  have hrest : countSub summaryHeading (lazyScan B).2 = 0 := by
    have hle := countSub_le_append_right summaryHeading (lazyScan B).1 (lazyScan B).2
    rw [lazyScan_append_eq] at hle
    omega
  have hre : A ++ newSummarySection F ++ (lazyScan B).2 =
      A ++ summaryHeadingNN ++ (F ++ '\n' :: '\n' :: (lazyScan B).2) := by
    unfold newSummarySection
    simp [List.append_assoc]
  rw [hre, countSub_heading_split,
    countSub_append_newline summaryHeading_ne_nil newline_not_mem_summaryHeading,
    countSub_cons_newline summaryHeading_ne_nil newline_not_mem_summaryHeading,
    hAH, hF, hrest]

/-! ## Claim theorems for the README upserter -/

/-- Claim C1 (counterexample).  Upserting the same summary, title and date twice
onto a README with a `## Features` anchor does not reproduce the first
call's text: feeding the first call's written README back into a second
call yields a different text (an extra newline is inserted). -/
theorem c1_upsert_not_idempotent_counterexample :
    (upsertReadme (some "Intro\n\n## Features\nrest".data)
        "X".data "T".data "2024-01-01".data).bind
      (fun r1 => upsertReadme (some r1) "X".data "T".data "2024-01-01".data) ≠
      upsertReadme (some "Intro\n\n## Features\nrest".data)
        "X".data "T".data "2024-01-01".data := by decide

/-- Witness for C1's amended theorem at a concrete README and digest. -/
theorem c1_second_upsert_adds_one_newline_witness :
    ∃ X Y : List Char,
      upsertReadme (some "Intro\n\n## Features\nrest".data)
          "X".data "T".data "2024-01-01".data = some (X ++ '\n' :: '\n' :: Y) ∧
      upsertReadme (some (X ++ '\n' :: '\n' :: Y))
          "X".data "T".data "2024-01-01".data =
        some (X ++ '\n' :: '\n' :: '\n' :: Y) :=
  c1_second_upsert_adds_one_newline "X".data "T".data "2024-01-01".data
    "Intro\n\n## Features\nrest".data (by decide) (by decide) (by decide) (by decide)
    (by decide)

/-- Claim C2 (amended).  An upsert succeeds and leaves exactly one digest
heading in the written README provided the starting state is well formed —
no file, a file without the digest heading, or a file in which the heading
occurs exactly once and is followed by a blank line — and the formatted
digest itself is backslash-free (so `re.sub`'s replacement template raises
nothing) and does not contain the heading. -/
theorem c2_exactly_one_digest_section
    (st : Option (List Char)) (c t d : List Char)
    (hF0 : countSub summaryHeading (formatDailySummary c t d) = 0)
    (hFb : '\\' ∉ formatDailySummary c t d)
    (hwf : ∀ r, st = some r →
      countSub summaryHeading r = 0 ∨
      (countSub summaryHeading r = 1 ∧ ∃ A B, r = A ++ summaryHeadingNN ++ B)) :
    ∃ out, upsertReadme st c t d = some out ∧ countSub summaryHeading out = 1 := by
  cases st with
  | none =>
    exact ⟨createNewReadme (formatDailySummary c t d), rfl, countSub_create hF0⟩
  | some r =>
    rcases hwf r rfl with hr | ⟨hr1, A, B, rfl⟩
    · refine ⟨insertNewSummarySection r (formatDailySummary c t d),
        update_on_fresh _ hr, ?_⟩
      cases hfind : findSub "## Features".data r with
      | some i =>
        rw [insert_shape_anchor _ hfind]
        exact countSub_fresh_section (countSub_take_zero hr i) hF0 (countSub_drop_zero hr i)
      | none =>
        rw [insert_shape_noanchor _ hfind]
        exact countSub_fresh_section2 hr hF0
    · exact ⟨A ++ newSummarySection (formatDailySummary c t d) ++ (lazyScan B).2,
        update_on_canonical hFb hr1, countSub_after_canonical hr1 hF0⟩

/-- Claim C2 (counterexample).  A README that contains the digest heading not
followed by a blank line makes the upsert append a second copy: the result
contains the heading twice, so the "exactly one digest section" claim fails
on this starting state. -/
theorem c2_duplicate_section_counterexample :
    (upsertReadme (some "## 📅 Daily Blog Summaryx".data)
        "X".data "T".data "2024-01-01".data).map (countSub summaryHeading) =
      some 2 := by decide

/-- Witness for C2's amended theorem at a concrete well-formed README. -/
theorem c2_exactly_one_digest_section_witness :
    ∃ out, upsertReadme
        (some "## 📅 Daily Blog Summary\n\nOld\n\n## Features\nrest".data)
        "X".data "T".data "2024-01-01".data = some out ∧
      countSub summaryHeading out = 1 :=
  c2_exactly_one_digest_section
    (some "## 📅 Daily Blog Summary\n\nOld\n\n## Features\nrest".data)
    "X".data "T".data "2024-01-01".data (by decide) (by decide)
    (fun r hr => by
      cases hr
      exact Or.inr ⟨by decide, [], "Old\n\n## Features\nrest".data, by decide⟩)

/-- Claim C5 (confirmed).  On a README without the digest heading, the upsert
inserts the formatted digest section directly before the first
`## Features` anchor, preserving the text before and after the anchor
verbatim; when no anchor exists the section is appended at the end. -/
theorem c5_insert_before_features_anchor (c t d : List Char) :
    (∀ pre post : List Char,
      countSub summaryHeading (pre ++ post) = 0 →
      ("## Features".data).isPrefixOf post = true →
      (∀ j, j < pre.length → ("## Features".data).isPrefixOf ((pre ++ post).drop j) = false) →
      upsertReadme (some (pre ++ post)) c t d =
        some (pre ++ '\n' :: (summaryHeadingNN ++
          (formatDailySummary c t d ++ '\n' :: '\n' :: post))))
    ∧ (∀ r : List Char,
      countSub summaryHeading r = 0 →
      countSub ("## Features".data) r = 0 →
      upsertReadme (some r) c t d =
        some (r ++ '\n' :: '\n' :: (summaryHeadingNN ++
          (formatDailySummary c t d ++ '\n' :: '\n' :: [])))) := by
  constructor
  · intro pre post hr0 hpf hmin
    have e1 : upsertReadme (some (pre ++ post)) c t d =
        some (insertNewSummarySection (pre ++ post) (formatDailySummary c t d)) :=
      update_on_fresh _ hr0
    rw [e1]
    unfold insertNewSummarySection
    rw [findSub_prefix_first pre post hpf hmin]
    simp [List.take_left, List.drop_left, List.append_assoc]
  · intro r hr0 hanchor
    have e1 : upsertReadme (some r) c t d =
        some (insertNewSummarySection r (formatDailySummary c t d)) :=
      update_on_fresh _ hr0
    rw [e1]
    unfold insertNewSummarySection
    rw [findSub_none_of_count_zero hanchor]
    simp [List.append_assoc]

/-- Witness for C5 at a concrete README with the anchor present. -/
theorem c5_insert_before_features_anchor_witness :
    upsertReadme (some ("Intro\n\n".data ++ "## Features\nrest".data))
        "X".data "T".data "2024-01-01".data =
      some ("Intro\n\n".data ++ '\n' :: (summaryHeadingNN ++
        (formatDailySummary "X".data "T".data "2024-01-01".data ++
          '\n' :: '\n' :: "## Features\nrest".data))) :=
  (c5_insert_before_features_anchor "X".data "T".data "2024-01-01".data).1
    "Intro\n\n".data "## Features\nrest".data (by decide) (by decide) (by decide)

/-! ## Lemmas about the RSS extractor -/

theorem lexLt_asymm {a b : List Char} (h : lexLt a b = true) : lexLt b a = false := by
  induction a generalizing b with
  | nil =>
    cases b with
    | nil => simp [lexLt] at h
    | cons y ys => rfl
  | cons x xs ih =>
    cases b with
    | nil => simp [lexLt] at h
    | cons y ys =>
      simp only [lexLt] at h ⊢
      rcases Nat.lt_trichotomy x.toNat y.toNat with hlt | heq | hgt
      · rw [if_neg (by omega), if_neg (by simp only [beq_iff_eq]; omega)]
      · rw [if_neg (by omega)] at h
        rw [if_pos (by rw [beq_iff_eq]; omega)] at h
        rw [if_neg (by omega), if_pos (by rw [beq_iff_eq]; omega)]
        exact ih h
      · rw [if_neg (by omega), if_neg (by rw [beq_iff_eq]; omega)] at h
        exact absurd h (by simp)

/-- The descending-sort order relation between adjacent posts. -/
def descAdj (p q : Post) : Prop := lexLt p.published q.published = false

theorem chain'_insDesc (x : Post) {l : List Post} (h : List.Chain' descAdj l) :
    List.Chain' descAdj (insDesc x l) := by
  induction l with
  | nil => simp [insDesc, List.chain'_singleton]
  | cons y ys ih =>
    rw [List.chain'_cons'] at h
    by_cases hx : lexLt x.published y.published = true
    · simp only [insDesc, if_pos hx]
      rw [List.chain'_cons']
      refine ⟨?_, ih h.2⟩
      intro z hz
      cases ys with
      | nil =>
        simp [insDesc] at hz
        rw [← hz]
        exact lexLt_asymm hx
      | cons w ws =>
        simp only [insDesc] at hz
        by_cases hw : lexLt x.published w.published = true
        · rw [if_pos hw] at hz
          simp at hz
          rw [← hz]
          exact h.1 w rfl
        · rw [if_neg hw] at hz
          simp at hz
          rw [← hz]
          exact lexLt_asymm hx
    · simp only [insDesc, if_neg hx]
      rw [List.chain'_cons]
      exact ⟨by simpa using hx, List.chain'_cons'.mpr h⟩

theorem sortDesc_sorted (l : List Post) :
    List.Chain' descAdj (sortDescByPublished l) := by
  induction l with
  | nil => simp [sortDescByPublished]
  | cons x xs ih => exact chain'_insDesc x ih

theorem length_insDesc (x : Post) (l : List Post) :
    (insDesc x l).length = l.length + 1 := by
  induction l with
  | nil => rfl
  | cons y ys ih =>
    simp only [insDesc]
    by_cases hx : lexLt x.published y.published = true
    · rw [if_pos hx]
      simp [ih]
    · rw [if_neg hx]
      simp

theorem length_sortDesc (l : List Post) :
    (sortDescByPublished l).length = l.length := by
  induction l with
  | nil => rfl
  | cons x xs ih =>
    simp only [sortDescByPublished]
    rw [length_insDesc, ih]
    rfl

theorem mem_insDesc {p x : Post} {l : List Post} :
    p ∈ insDesc x l ↔ p = x ∨ p ∈ l := by
  induction l with
  | nil => simp [insDesc]
  | cons y ys ih =>
    simp only [insDesc]
    by_cases hx : lexLt x.published y.published = true
    · rw [if_pos hx]
      simp only [List.mem_cons, ih]
      tauto
    · rw [if_neg hx]
      simp only [List.mem_cons]

theorem mem_sortDesc {p : Post} {l : List Post} :
    p ∈ sortDescByPublished l ↔ p ∈ l := by
  induction l with
  | nil => simp [sortDescByPublished]
  | cons x xs ih =>
    simp only [sortDescByPublished]
    rw [mem_insDesc]
    simp [ih]

theorem relevantPosts_cons (topic bn bu ru xa : List Char) (e : Entry) (es : List Entry) :
    relevantPosts topic bn bu ru xa (e :: es) =
      if entryRelevant topic e then
        mkPost e bn bu ru xa :: relevantPosts topic bn bu ru xa es
      else relevantPosts topic bn bu ru xa es := by
  simp only [relevantPosts, List.filter_cons]
  split <;> simp

theorem classify_eq (isToday : List Char → Bool) (topic bn bu ru xa : List Char)
    (es : List Entry) :
    classifyEntries isToday topic bn bu ru xa es =
      ((relevantPosts topic bn bu ru xa es).filter (fun p => isToday p.published),
       (relevantPosts topic bn bu ru xa es).filter (fun p => !(isToday p.published))) := by
  induction es with
  | nil => rfl
  | cons e es ih =>
    rw [relevantPosts_cons]
    simp only [classifyEntries, ih]
    by_cases hrel : entryRelevant topic e = true
    · rw [if_pos hrel, if_pos hrel]
      by_cases htod : isToday (mkPost e bn bu ru xa).published = true
      · rw [if_pos htod]
        simp [List.filter_cons, htod]
      · rw [if_neg htod]
        simp only [Bool.not_eq_true] at htod
        simp [List.filter_cons, htod]
    · rw [if_neg hrel, if_neg hrel]

theorem filter_isEmpty_eq (p : Post → Bool) (l : List Post) :
    (l.filter p).isEmpty = !(l.any p) := by
  induction l with
  | nil => rfl
  | cons x xs ih =>
    simp only [List.filter_cons, List.any_cons]
    by_cases hx : p x = true
    · simp [hx]
    · simp only [Bool.not_eq_true] at hx
      simp [hx, ih]

theorem tryFeeds_eq_nil_iff (fetch : List Char → List Post) (urls : List (List Char)) :
    tryFeeds fetch urls = [] ↔ ∀ u ∈ urls, fetch u = [] := by
  induction urls with
  | nil => simp [tryFeeds]
  | cons u us ih =>
    simp only [tryFeeds]
    by_cases hu : (fetch u).isEmpty = true
    · rw [if_pos hu]
      rw [List.isEmpty_iff] at hu
      simp [hu, ih]
    · rw [if_neg hu]
      rw [Bool.not_eq_true, ← Bool.not_eq_true, List.isEmpty_iff] at hu
      constructor
      · intro h
        exact absurd h hu
      · intro h
        exact absurd (h u (by simp)) hu

theorem accumulated_eq_nil_iff (fetch : List Char → BlogSource → List Post)
    (probe : List Char → ProbeResult) (blogs : List BlogSource) :
    accumulatedPosts fetch probe blogs = [] ↔
      ∀ b ∈ blogs, ∀ u ∈ findRssFeed b.url (probe b.url), fetch u b = [] := by
  unfold accumulatedPosts
  rw [List.flatMap_eq_nil_iff]
  constructor
  · intro h b hb u hu
    exact (tryFeeds_eq_nil_iff _ _).mp (h b hb) u hu
  · intro h b hb
    exact (tryFeeds_eq_nil_iff _ _).mpr (h b hb)

/-! ## Claim theorems for the markdown formatter and the RSS extractor -/

/-- Claim C4 (counterexample).  In summary mode with no title and no date, the
input `"## Title\n\nSome text"` does not produce "Some text" followed by a
blank line: the final `strip()` removes the trailing newlines, so the output
does not even contain `"Some text\n"`. -/
theorem c4_no_trailing_blank_line_counterexample :
    containsSub "Some text\n".data
      (formatSummary "## Title\n\nSome text".data [] []) = false := by decide

/-- Claim C4 (amended).  In summary mode with no title and no date, the input
`"## Title\n\nSome text"` yields exactly `"## Title\n\nSome text"`: the
heading line is kept unmodified and the paragraph line is kept, with its
trailing blank line removed by the final strip because the paragraph is
last. -/
theorem c4_summary_mode_two_line_input :
    formatSummary "## Title\n\nSome text".data [] [] = "## Title\n\nSome text".data ∧
    containsSub "## Title".data (formatSummary "## Title\n\nSome text".data [] []) = true ∧
    containsSub "Some text".data (formatSummary "## Title\n\nSome text".data [] []) = true := by
  refine ⟨by decide, by decide, by decide⟩

/-- Claim C3 (confirmed).  The fetcher's selection policy: when some relevant
entry is from today, the result is exactly today's relevant posts sorted
descending by the raw published string and truncated to `max_posts` — other
entries are excluded even when fewer than `max_posts` today-entries exist;
otherwise the result is the other relevant posts sorted and truncated the
same way.  The result is never longer than `max_posts` and is always sorted
descending. -/
theorem c3_today_selection_policy
    (isToday : List Char → Bool) (entries : List Entry)
    (bn bu ru topic : List Char) (maxPosts : Nat) (xa : List Char) :
    ((relevantPosts topic bn bu ru xa entries).any (fun p => isToday p.published) = true →
      extractPostsFromRss isToday entries bn bu ru topic maxPosts xa =
        (sortDescByPublished ((relevantPosts topic bn bu ru xa entries).filter
          (fun p => isToday p.published))).take maxPosts ∧
      ∀ p ∈ extractPostsFromRss isToday entries bn bu ru topic maxPosts xa,
        isToday p.published = true)
    ∧ ((relevantPosts topic bn bu ru xa entries).any (fun p => isToday p.published) = false →
      extractPostsFromRss isToday entries bn bu ru topic maxPosts xa =
        (sortDescByPublished ((relevantPosts topic bn bu ru xa entries).filter
          (fun p => !(isToday p.published)))).take maxPosts)
    ∧ (extractPostsFromRss isToday entries bn bu ru topic maxPosts xa).length ≤ maxPosts
    ∧ List.Chain' descAdj (extractPostsFromRss isToday entries bn bu ru topic maxPosts xa) := by
  have hext : extractPostsFromRss isToday entries bn bu ru topic maxPosts xa =
      if ((relevantPosts topic bn bu ru xa entries).filter
          (fun p => isToday p.published)).isEmpty then
        (sortDescByPublished ((relevantPosts topic bn bu ru xa entries).filter
          (fun p => !(isToday p.published)))).take maxPosts
      else
        (sortDescByPublished ((relevantPosts topic bn bu ru xa entries).filter
          (fun p => isToday p.published))).take maxPosts := by
    unfold extractPostsFromRss
    rw [classify_eq]
  rw [filter_isEmpty_eq] at hext
  refine ⟨?_, ?_, ?_, ?_⟩
  · intro hany
    rw [hany] at hext
    simp only [Bool.not_true, Bool.false_eq_true, if_false] at hext
    refine ⟨hext, ?_⟩
    intro p hp
    rw [hext] at hp
    have hp2 : p ∈ sortDescByPublished ((relevantPosts topic bn bu ru xa entries).filter
        (fun p => isToday p.published)) := List.take_subset _ _ hp
    have hp3 := mem_sortDesc.mp hp2
    exact (List.mem_filter.mp hp3).2
  · intro hany
    rw [hany] at hext
    simpa using hext
  · rw [hext]
    cases hb : !(relevantPosts topic bn bu ru xa entries).any (fun p => isToday p.published) <;>
      simp [List.length_take_le]
  · rw [hext]
    cases hb : !(relevantPosts topic bn bu ru xa entries).any (fun p => isToday p.published) <;>
      simp <;> exact List.Chain'.take (sortDesc_sorted _) _

/-- Witness for C3 at a concrete feed with one entry from today and two
older relevant entries. -/
theorem c3_today_selection_policy_witness :
    extractPostsFromRss (fun p => p == "2024-05-04".data)
        [⟨some "Rust at scale".data, some "l1".data, some "2024-05-02".data,
            some "all about rust".data, []⟩,
         ⟨some "Rust today".data, some "l3".data, some "2024-05-04".data,
            some "rust again".data, []⟩]
        "b".data "u".data "r".data "rust".data 5 "x".data =
      (sortDescByPublished ((relevantPosts "rust".data "b".data "u".data "r".data "x".data
        [⟨some "Rust at scale".data, some "l1".data, some "2024-05-02".data,
            some "all about rust".data, []⟩,
         ⟨some "Rust today".data, some "l3".data, some "2024-05-04".data,
            some "rust again".data, []⟩]).filter
        (fun p => p.published == "2024-05-04".data))).take 5 ∧
    ∀ p ∈ extractPostsFromRss (fun p => p == "2024-05-04".data)
        [⟨some "Rust at scale".data, some "l1".data, some "2024-05-02".data,
            some "all about rust".data, []⟩,
         ⟨some "Rust today".data, some "l3".data, some "2024-05-04".data,
            some "rust again".data, []⟩]
        "b".data "u".data "r".data "rust".data 5 "x".data,
      (p.published == "2024-05-04".data) = true :=
  (c3_today_selection_policy (fun p => p == "2024-05-04".data) _ _ _ _ _ 5 _).1 (by decide)

/-! ## Claim theorems for the aggregator, the feed locator and the emailer -/

/-- Claim C7 (confirmed).  The aggregator returns the distinct no-posts outcome
exactly when every blog source yields no posts from every one of its
candidate feed URLs; otherwise it returns a success envelope whose topic
and extraction date are the run's own and whose `total_posts` equals the
number of posts in the envelope. -/
theorem c7_no_posts_outcome (fetch : List Char → BlogSource → List Post)
    (probe : List Char → ProbeResult) (blogs : List BlogSource)
    (topic date : List Char) :
    (rssRun fetch probe blogs topic date = RunResult.noPosts ↔
      ∀ b ∈ blogs, ∀ u ∈ findRssFeed b.url (probe b.url), fetch u b = [])
    ∧ (∀ tp n dd ps, rssRun fetch probe blogs topic date = RunResult.success tp n dd ps →
      tp = topic ∧ dd = date ∧ n = ps.length) := by
  constructor
  · rw [← accumulated_eq_nil_iff fetch probe blogs]
    unfold rssRun
    by_cases hacc : (accumulatedPosts fetch probe blogs).isEmpty = true
    · rw [if_pos hacc]
      rw [List.isEmpty_iff] at hacc
      simp [hacc]
    · rw [if_neg hacc]
      rw [Bool.not_eq_true, ← Bool.not_eq_true, List.isEmpty_iff] at hacc
      simp only [reduceCtorEq, false_iff]
      exact hacc
  · intro tp n dd ps h
    unfold rssRun at h
    by_cases hacc : (accumulatedPosts fetch probe blogs).isEmpty = true
    · rw [if_pos hacc] at h
      exact absurd h (by simp)
    · rw [if_neg hacc] at h
      injection h with h1 h2 h3 h4
      refine ⟨h1.symm, h3.symm, ?_⟩
      rw [← h4, length_sortDesc, h2]

/-- Witness for C7: a run where every candidate of every blog yields nothing
is the distinct no-posts outcome. -/
theorem c7_no_posts_outcome_witness :
    rssRun (fun _ _ => ([] : List Post)) (fun _ => ProbeResult.exn)
      [⟨"blog".data, "https://b".data⟩] "t".data "d".data = RunResult.noPosts :=
  (c7_no_posts_outcome (fun _ _ => ([] : List Post)) (fun _ => ProbeResult.exn)
    [⟨"blog".data, "https://b".data⟩] "t".data "d".data).1.mpr
    (fun _ _ _ _ => rfl)

/-- Claim C8 (confirmed).  The feed locator always returns at least the seven
fixed suffix candidates, in order; it returns at least eleven when the
probe returns 200 with "rss" or "feed" in the lowercased body; and a probe
failure yields exactly the base seven. -/
theorem c8_feed_locator_candidates (url : List Char) (probe : ProbeResult) :
    7 ≤ (findRssFeed url probe).length
    ∧ (findRssFeed url probe).take 7 =
        [url ++ "/rss".data, url ++ "/feed".data, url ++ "/rss.xml".data,
         url ++ "/feed.xml".data, url ++ "/atom.xml".data, url ++ "/rss/".data,
         url ++ "/feed/".data]
    ∧ (∀ body, probe = ProbeResult.ok 200 body →
        (containsSub "rss".data (pyLower body) || containsSub "feed".data (pyLower body)) = true →
        11 ≤ (findRssFeed url probe).length)
    ∧ (probe = ProbeResult.exn →
        findRssFeed url probe =
          [url ++ "/rss".data, url ++ "/feed".data, url ++ "/rss.xml".data,
           url ++ "/feed.xml".data, url ++ "/atom.xml".data, url ++ "/rss/".data,
           url ++ "/feed/".data]) := by
  refine ⟨?_, ?_, ?_, ?_⟩
  · cases probe with
    | exn => simp [findRssFeed]
    | ok status body =>
      simp only [findRssFeed]
      by_cases h200 : (status == 200) = true
      · rw [if_pos h200]
        by_cases hbody : (containsSub "rss".data (pyLower body) ||
            containsSub "feed".data (pyLower body)) = true
        · rw [if_pos hbody]
          simp
        · rw [if_neg hbody]
          simp
      · rw [if_neg h200]
        simp
  · cases probe with
    | exn => simp [findRssFeed]
    | ok status body =>
      simp only [findRssFeed]
      by_cases h200 : (status == 200) = true
      · rw [if_pos h200]
        by_cases hbody : (containsSub "rss".data (pyLower body) ||
            containsSub "feed".data (pyLower body)) = true
        · rw [if_pos hbody]
          simp [List.take_succ_cons]
        · rw [if_neg hbody]
          simp [List.take_succ_cons]
      · rw [if_neg h200]
        simp [List.take_succ_cons]
  · intro body hp hbody
    rw [hp]
    simp only [findRssFeed]
    rw [if_pos (by decide), if_pos hbody]
    simp
  · intro hp
    rw [hp]
    rfl

/-- Witness for C8: a probe body containing "RSS" (case-insensitively)
yields at least eleven candidates. -/
theorem c8_feed_locator_candidates_witness :
    11 ≤ (findRssFeed "https://b".data (ProbeResult.ok 200 "see our RSS page".data)).length :=
  (c8_feed_locator_candidates "https://b".data
    (ProbeResult.ok 200 "see our RSS page".data)).2.2.1
    "see our RSS page".data rfl (by decide)

/-- Claim C9 (confirmed).  Every success envelope the aggregator emits carries
posts sorted descending by the raw published string under lexicographic
comparison: adjacent posts always satisfy the descending relation. -/
theorem c9_success_posts_sorted (fetch : List Char → BlogSource → List Post)
    (probe : List Char → ProbeResult) (blogs : List BlogSource)
    (topic date : List Char) (tp : List Char) (n : Nat) (dd : List Char) (ps : List Post)
    (h : rssRun fetch probe blogs topic date = RunResult.success tp n dd ps) :
    List.Chain' descAdj ps := by
  unfold rssRun at h
  by_cases hacc : (accumulatedPosts fetch probe blogs).isEmpty = true
  · rw [if_pos hacc] at h
    exact absurd h (by simp)
  · rw [if_neg hacc] at h
    injection h with h1 h2 h3 h4
    rw [← h4]
    exact sortDesc_sorted _

/-- Witness for C9: a concrete run returning two posts out of order in the
feed emits them sorted descending. -/
theorem c9_success_posts_sorted_witness :
    List.Chain' descAdj
      [⟨"B".data, "lb".data, "2024-05-03".data, "sb".data, "b".data, "u".data,
          "r".data, "x".data⟩,
       ⟨"A".data, "la".data, "2024-05-02".data, "sa".data, "b".data, "u".data,
          "r".data, "x".data⟩] :=
  c9_success_posts_sorted
    (fun _ _ => [⟨"A".data, "la".data, "2024-05-02".data, "sa".data, "b".data, "u".data,
        "r".data, "x".data⟩,
      ⟨"B".data, "lb".data, "2024-05-03".data, "sb".data, "b".data, "u".data,
        "r".data, "x".data⟩])
    (fun _ => ProbeResult.exn) [⟨"blog".data, "https://b".data⟩] "t".data "d".data
    "t".data 2 "d".data
    [⟨"B".data, "lb".data, "2024-05-03".data, "sb".data, "b".data, "u".data,
        "r".data, "x".data⟩,
     ⟨"A".data, "la".data, "2024-05-02".data, "sa".data, "b".data, "u".data,
        "r".data, "x".data⟩]
    (by decide)

theorem lowerChar_space {c : Char} (h : isSpaceChar c = true) :
    isSpaceChar (lowerChar c) = true := by
  simp only [isSpaceChar, Bool.or_eq_true, beq_iff_eq] at h
  rcases h with ((((h | h) | h) | h) | h) | h <;> subst h <;> decide

theorem splitWsAux_nil_of_space {l : List Char} (h : ∀ c ∈ l, isSpaceChar c = true) :
    splitWsAux [] l = [] := by
  induction l with
  | nil => rfl
  | cons c cs ih =>
    have hc := h c (List.mem_cons_self c cs)
    simp only [splitWsAux, hc, if_pos]
    simpa using ih (fun x hx => h x (List.mem_cons_of_mem c hx))

theorem splitWs_lower_of_space {topic : List Char} (h : topic.all isSpaceChar = true) :
    splitWs (pyLower topic) = [] := by
  apply splitWsAux_nil_of_space
  intro c hc
  obtain ⟨c0, hc0, rfl⟩ := List.mem_map.mp hc
  exact lowerChar_space (List.all_eq_true.mp h c0 hc0)

theorem entryRelevant_of_space_topic {topic : List Char} (h : topic.all isSpaceChar = true)
    (e : Entry) : entryRelevant topic e = false := by
  unfold entryRelevant
  rw [splitWs_lower_of_space h]
  rfl

theorem relevantPosts_nil_of_space_topic {topic : List Char}
    (h : topic.all isSpaceChar = true) (bn bu ru xa : List Char) (entries : List Entry) :
    relevantPosts topic bn bu ru xa entries = [] := by
  unfold relevantPosts
  have hf : entries.filter (entryRelevant topic) = [] := by
    induction entries with
    | nil => rfl
    | cons e es ih => simp [List.filter_cons, entryRelevant_of_space_topic h, ih]
  rw [hf]
  rfl

/-- Claim C10 (confirmed).  A topic that is empty or all whitespace has no
keyword tokens, so no entry is ever relevant: the fetcher returns the empty
sequence on every feed, and a whole aggregator run over any blog sources
returns the distinct no-posts outcome regardless of the feeds' contents. -/
theorem c10_whitespace_topic_yields_nothing (topic : List Char)
    (hws : topic.all isSpaceChar = true) :
    (∀ (isToday : List Char → Bool) (entries : List Entry) (bn bu ru xa : List Char)
      (maxPosts : Nat),
      extractPostsFromRss isToday entries bn bu ru topic maxPosts xa = [])
    ∧ (∀ (isToday : List Char → Bool) (feedEntries : List Char → BlogSource → List Entry)
      (probe : List Char → ProbeResult) (blogs : List BlogSource)
      (maxPosts : Nat) (date xa : List Char),
      rssRun (fun u b => extractPostsFromRss isToday (feedEntries u b) b.name b.url u
        topic maxPosts xa) probe blogs topic date = RunResult.noPosts) := by
  have hext : ∀ (isToday : List Char → Bool) (entries : List Entry)
      (bn bu ru xa : List Char) (maxPosts : Nat),
      extractPostsFromRss isToday entries bn bu ru topic maxPosts xa = [] := by
    intro isToday entries bn bu ru xa maxPosts
    unfold extractPostsFromRss
    rw [classify_eq, relevantPosts_nil_of_space_topic hws]
    simp [sortDescByPublished]
  refine ⟨hext, ?_⟩
  intro isToday feedEntries probe blogs maxPosts date xa
  unfold rssRun
  have hacc : accumulatedPosts (fun u b => extractPostsFromRss isToday (feedEntries u b)
      b.name b.url u topic maxPosts xa) probe blogs = [] := by
    rw [accumulated_eq_nil_iff]
    intro b _ u _
    exact hext isToday (feedEntries u b) b.name b.url u xa maxPosts
  rw [hacc]
  rfl

/-- Witness for C10: a one-space topic over a feed that does contain posts
still produces an empty extraction and the no-posts outcome. -/
theorem c10_whitespace_topic_yields_nothing_witness :
    extractPostsFromRss (fun _ => false)
      [⟨some "Rust at scale".data, some "l1".data, some "2024-05-02".data,
          some "all about rust".data, []⟩]
      "b".data "u".data "r".data " ".data 5 "x".data = [] ∧
    rssRun (fun u b => extractPostsFromRss (fun _ => false)
        [⟨some "Rust at scale".data, some "l1".data, some "2024-05-02".data,
            some "all about rust".data, []⟩] b.name b.url u " ".data 5 "x".data)
      (fun _ => ProbeResult.exn) [⟨"blog".data, "https://b".data⟩]
      " ".data "d".data = RunResult.noPosts :=
  ⟨(c10_whitespace_topic_yields_nothing " ".data (by decide)).1 (fun _ => false)
      [⟨some "Rust at scale".data, some "l1".data, some "2024-05-02".data,
          some "all about rust".data, []⟩] "b".data "u".data "r".data "x".data 5,
   (c10_whitespace_topic_yields_nothing " ".data (by decide)).2 (fun _ => false)
      (fun _ _ => [⟨some "Rust at scale".data, some "l1".data, some "2024-05-02".data,
          some "all about rust".data, []⟩])
      (fun _ => ProbeResult.exn) [⟨"blog".data, "https://b".data⟩] 5 "d".data "x".data⟩

/-- Claim C6 (confirmed).  The emailer's send loop: the regional-401 signature
(and only it) triggers exactly one retry for that recipient; no failure
aborts the loop, every recipient is processed; the success count equals the
number of recipients whose initial send — or, for retried recipients, whose
retried send — returned a 2xx status; and the region flag ends up flipped
once per retried recipient. -/
theorem c6_email_regional_retry (eu : Bool) (rs : List RecipientSend) :
    (emailSendLoop eu rs).successCount =
      rs.countP (fun r => outcomeSuccess r.initial ||
        (regionalRetryTrigger r.initial && outcomeSuccess r.retry))
    ∧ (emailSendLoop eu rs).retriedFlags = rs.map (fun r => regionalRetryTrigger r.initial)
    ∧ (emailSendLoop eu rs).finalEu =
        Bool.xor eu (decide (rs.countP (fun r => regionalRetryTrigger r.initial) % 2 = 1)) := by
  induction rs generalizing eu with
  | nil => simp [emailSendLoop]
  | cons r rs ih =>
    simp only [emailSendLoop]
    by_cases h1 : outcomeSuccess r.initial = true
    · have h2 : regionalRetryTrigger r.initial = false := by
        cases hini : r.initial with
        | response s => rfl
        | httpError st body =>
          rw [hini] at h1
          exact absurd h1 (by simp [outcomeSuccess])
        | exn =>
          rw [hini] at h1
          exact absurd h1 (by simp [outcomeSuccess])
      rw [if_pos h1]
      obtain ⟨ihs, ihf, ihe⟩ := ih eu
      refine ⟨?_, ?_, ?_⟩
      · simp [List.countP_cons, h1, ihs]
      · simp [ihf, h2]
      · simp [ihe, List.countP_cons, h2]
    · by_cases h2 : regionalRetryTrigger r.initial = true
      · rw [if_neg h1, if_pos h2]
        obtain ⟨ihs, ihf, ihe⟩ := ih (!eu)
        have h1f : outcomeSuccess r.initial = false := by
          cases hx : outcomeSuccess r.initial with
          | false => rfl
          | true => exact absurd hx h1
        refine ⟨?_, ?_, ?_⟩
        · simp only [ihs, List.countP_cons, h1f, h2, Bool.false_or, Bool.true_and]
          by_cases h3 : outcomeSuccess r.retry = true
          · simp only [h3, if_pos]
            omega
          · simp only [h3, Bool.false_eq_true, if_false]
            omega
        · simp [ihf, h2]
        · have hxor : ∀ (a b : Bool), Bool.xor (!a) b = Bool.xor a (!b) := by decide
          have hpar : ∀ k : Nat, (decide ((k + 1) % 2 = 1)) = !(decide (k % 2 = 1)) := by
            intro k
            rcases Nat.mod_two_eq_zero_or_one k with hk | hk <;> simp [Nat.add_mod, hk]
          simp only [ihe, List.countP_cons, h2, if_pos]
          rw [hxor, ← hpar]
      · rw [if_neg h1, if_neg h2]
        obtain ⟨ihs, ihf, ihe⟩ := ih eu
        have h1f : outcomeSuccess r.initial = false := by
          cases hx : outcomeSuccess r.initial with
          | false => rfl
          | true => exact absurd hx h1
        have h2f : regionalRetryTrigger r.initial = false := by
          cases hx : regionalRetryTrigger r.initial with
          | false => rfl
          | true => exact absurd hx h2
        refine ⟨?_, ?_, ?_⟩
        · simp [List.countP_cons, h1f, h2f, ihs]
        · simp [ihf, h2f]
        · simp [ihe, List.countP_cons, h2f]

end Maffb
